import Mathlib

/-!
Snake game: the state-update core of `public/snake-game/snake.js`.

A shallow embedding of the `SnakeGame` class.  The object's mutable fields become
the fields of a record, every method becomes a function from the record to the
record after the call.  Two things the methods take from the browser are passed
explicitly:

* the values returned by `Math.random()`, as a list of draws that the method
  consumes from the front (a method that needs more draws than the list holds
  has not returned yet: the result is `none`);
* the handle returned by `requestAnimationFrame`, as a number.

The numbers of the game are integers, with one exception that the code itself
produces: `KEY_BINDINGS` is a plain object, so a key that names a member of
`Object.prototype` reads that member, an object without `x` and `y`; adding its
missing coordinates to a position gives `NaN`.  Headings and segments therefore
come in two kinds each, see `Heading` and `Segment`.

Timestamps are whole milliseconds.  Drawing (`draw`, `updateScore`) writes to the
canvas and to the score element only and is left out.
-/

/-- A grid position `{ x, y }` with integer coordinates. -/
structure Cell where
  x : Int
  y : Int
deriving DecidableEq, Repr

/-- A vector `{ x, y }` with integer coordinates, as the four `DIRECTIONS` are. -/
structure Direction where
  x : Int
  y : Int
deriving DecidableEq, Repr

/-- A segment object of the snake, or the candidate head: a cell, or the object
`{ x: NaN, y: NaN }` that the sums of `step()` leave when a summand is missing. -/
inductive Segment where
  | cell (c : Cell)
  | nan
deriving DecidableEq, Repr

/-- The object stored in `direction` and `pendingDirection`: a vector, or a member
of `Object.prototype` read through `KEY_BINDINGS`, which has no `x` and no `y`. -/
inductive Heading where
  | vector (d : Direction)
  | member
deriving DecidableEq, Repr

/-- One value returned by `Math.random()`: the fraction `num / den`, which is at
least 0 and below 1. -/
structure Draw where
  num : Nat
  den : Nat
  lt : num < den
deriving DecidableEq

/-- A `keydown` event, reduced to the two properties the handler reads. -/
structure KeyEvent where
  code : String
  key : String
deriving DecidableEq, Repr

def GRID_SIZE : Nat := 20

def MOVE_INTERVAL_MS : Int := 110

namespace DIRECTIONS

def UP : Direction := ⟨0, -1⟩

def DOWN : Direction := ⟨0, 1⟩

def LEFT : Direction := ⟨-1, 0⟩

def RIGHT : Direction := ⟨1, 0⟩

end DIRECTIONS

/-- The own properties of the table `KEY_BINDINGS`: the eight keys it binds. -/
def KEY_BINDINGS (key : String) : Option Direction :=
  if key = "ArrowUp" then some DIRECTIONS.UP
  else if key = "ArrowDown" then some DIRECTIONS.DOWN
  else if key = "ArrowLeft" then some DIRECTIONS.LEFT
  else if key = "ArrowRight" then some DIRECTIONS.RIGHT
  else if key = "w" then some DIRECTIONS.UP
  else if key = "s" then some DIRECTIONS.DOWN
  else if key = "a" then some DIRECTIONS.LEFT
  else if key = "d" then some DIRECTIONS.RIGHT
  else none

/-- The names of the members of `Object.prototype`, which the object literal
`KEY_BINDINGS` inherits: those of the language standard and of its annex for
browsers. -/
def OBJECT_PROTOTYPE_KEYS : List String :=
  ["constructor", "hasOwnProperty", "isPrototypeOf", "propertyIsEnumerable",
    "toLocaleString", "toString", "valueOf", "__proto__", "__defineGetter__",
    "__defineSetter__", "__lookupGetter__", "__lookupSetter__"]

/-- The property read `KEY_BINDINGS[key]`: an own property, else an inherited
member, else `undefined`, here `none`. -/
def lookupBinding (key : String) : Option Heading :=
  match KEY_BINDINGS key with
  | some d => some (Heading.vector d)
  | none => if key ∈ OBJECT_PROTOTYPE_KEYS then some Heading.member else none

/-- The expression `Math.floor(Math.random() * GRID_SIZE)` at the draw `r`, with the
product taken exactly (the rounding of the floating-point product is left out). -/
def Draw.scaled (r : Draw) : Int :=
  ((r.num * GRID_SIZE / r.den : Nat) : Int)

/-- The two statements `head.x += d.x` and `head.y += d.y`: a cell moved by a
vector is a cell, every other sum is `NaN`. -/
def Segment.moved : Segment → Heading → Segment
  | Segment.cell c, Heading.vector d => Segment.cell ⟨c.x + d.x, c.y + d.y⟩
  | _, _ => Segment.nan

/-- The test `a.x === b.x && a.y === b.y`, which is false as soon as a coordinate
is `NaN`. -/
def Segment.sameAs : Segment → Segment → Bool
  | Segment.cell a, Segment.cell b => a.x == b.x && a.y == b.y
  | _, _ => false

/-- The wall test of `didCollide`; each of its four comparisons is false on `NaN`. -/
def Segment.outOfBounds : Segment → Bool
  | Segment.cell p =>
    p.x < 0 || p.x ≥ (GRID_SIZE : Int) || p.y < 0 || p.y ≥ (GRID_SIZE : Int)
  | Segment.nan => false

/-- The test `isOpposite` of `handleKeydown`: `direction.x === -next.x` and the same
for `y`, false as soon as one side has no numeric coordinates. -/
def Heading.isOpposite : Heading → Heading → Bool
  | Heading.vector a, Heading.vector b => a.x == -b.x && a.y == -b.y
  | _, _ => false

/-- The fields of a `SnakeGame` object that the update logic reads and writes. -/
structure SnakeGame where
  snake : List Segment
  direction : Heading
  pendingDirection : Heading
  food : Option Cell
  score : Int
  lastFrameTime : Int
  isRunning : Bool
  isGameOver : Bool
  didWin : Bool
  animationFrameId : Option Nat
deriving DecidableEq

namespace SnakeGame

/-- The method `stop()`: a handle that is neither `null` nor 0 is cancelled and cleared. -/
def stop (g : SnakeGame) : SnakeGame :=
  let g1 := { g with isRunning := false }
  match g1.animationFrameId with
  | some id => if id ≠ 0 then { g1 with animationFrameId := none } else g1
  | none => g1

/-- The method `finish(didWin)`. -/
def finish (g : SnakeGame) (didWin : Bool) : SnakeGame :=
  { g with didWin := didWin, isGameOver := true, isRunning := false }

/-- The method `didCollide(position, willGrow)`: out of the grid, or on the body,
where the body leaves out the last segment when the snake does not grow. -/
def didCollide (g : SnakeGame) (position : Segment) (willGrow : Bool) : Bool :=
  if position.outOfBounds then
    true
  else
    let body := if willGrow then g.snake else g.snake.dropLast
    body.any (fun segment => segment.sameAs position)

/-- The `do ... while` loop of `spawnFood()`: each round takes two draws, the first
for `x` and the second for `y`, and goes round again while the cell drawn is in
the occupied set.  The set holds the strings `x,y` of the segments, and two
segments give the same string exactly when they are the same. -/
def spawnLoop (occupied : List Segment) : List Draw → Option (Cell × List Draw)
  | rx :: ry :: rest =>
    let food : Cell := ⟨rx.scaled, ry.scaled⟩
    if occupied.contains (Segment.cell food) then spawnLoop occupied rest
    else some (food, rest)
  | _ => none

/-- The method `spawnFood()`: `null` when the snake has `GRID_SIZE * GRID_SIZE`
segments or more, otherwise the first drawn cell that is not occupied. -/
def spawnFood (g : SnakeGame) (rng : List Draw) : Option (Option Cell × List Draw) :=
  if g.snake.length ≥ GRID_SIZE * GRID_SIZE then
    some (none, rng)
  else
    match spawnLoop g.snake rng with
    | some (food, rest) => some (some food, rest)
    | none => none

/-- The candidate head computed at the start of `step()`: a copy of `snake[0]`
moved by `pendingDirection`.  With an empty snake the copy has no coordinates and
both sums are `NaN`. -/
def nextHead (g : SnakeGame) : Segment :=
  match g.snake with
  | [] => Segment.nan
  | first :: _ => first.moved g.pendingDirection

/-- The value `Boolean(isEating)` of `step()` for the candidate `head`. -/
def isEating (g : SnakeGame) (head : Segment) : Bool :=
  match g.food with
  | some f => head.sameAs (Segment.cell f)
  | none => false

/-- The method `step()`. -/
def step (g : SnakeGame) (rng : List Draw) : Option (SnakeGame × List Draw) :=
  let head := g.nextHead
  let eating := g.isEating head
  if g.didCollide head eating then
    some (g.finish false, rng)
  else
    let g1 := { g with direction := g.pendingDirection, snake := head :: g.snake }
    if eating then
      let g2 := { g1 with score := g1.score + 1 }
      match g2.spawnFood rng with
      | none => none
      | some (food, rest) =>
        let g3 := { g2 with food := food }
        if g3.food.isNone && g3.snake.length == GRID_SIZE * GRID_SIZE then
          some (g3.finish true, rest)
        else
          some (g3, rest)
    else
      some ({ g1 with snake := g1.snake.dropLast }, rng)

/-- The method `restart()`; `frame` is the handle that `requestAnimationFrame` returns. -/
def restart (g : SnakeGame) (rng : List Draw) (frame : Nat) : Option (SnakeGame × List Draw) :=
  let g1 := g.stop
  let g2 := { g1 with
    snake := [Segment.cell ⟨8, 10⟩, Segment.cell ⟨7, 10⟩, Segment.cell ⟨6, 10⟩]
    direction := Heading.vector DIRECTIONS.RIGHT
    pendingDirection := Heading.vector DIRECTIONS.RIGHT
    score := 0
    isGameOver := false
    didWin := false
    lastFrameTime := 0 }
  match g2.spawnFood rng with
  | none => none
  | some (food, rest) =>
    some ({ g2 with food := food, isRunning := true, animationFrameId := some frame }, rest)

/-- The key looked up in `KEY_BINDINGS`: a key of length 1 in lower case, any other
key as it is.  Lower case is taken on the letters A to Z only, which are the only
single characters whose lower case is a bound key. -/
def normalizedKey (rawKey : String) : String :=
  match rawKey.data with
  | [c] => String.mk [c.toLower]
  | _ => rawKey

/-- The method `handleKeydown(event)`.  The guard `!nextDirection` stops on
`undefined` only: an inherited member is an object and passes it. -/
def handleKeydown (g : SnakeGame) (event : KeyEvent) (rng : List Draw) (frame : Nat) :
    Option (SnakeGame × List Draw) :=
  if event.code = "Space" then
    g.restart rng frame
  else if g.isGameOver then
    some (g, rng)
  else
    match lookupBinding (normalizedKey event.key) with
    | none => some (g, rng)
    | some nextDirection =>
      if g.direction.isOpposite nextDirection then
        some (g, rng)
      else
        some ({ g with pendingDirection := nextDirection }, rng)

/-- The method `loop(timestamp)`; `frame` is the handle returned when the callback
is scheduled again. -/
def loop (g : SnakeGame) (timestamp : Int) (rng : List Draw) (frame : Nat) :
    Option (SnakeGame × List Draw) :=
  if !g.isRunning then
    some (g, rng)
  else
    let g1 := if g.lastFrameTime = 0 then { g with lastFrameTime := timestamp } else g
    let stepped :=
      if timestamp - g1.lastFrameTime ≥ MOVE_INTERVAL_MS then
        step { g1 with lastFrameTime := timestamp } rng
      else
        some (g1, rng)
    match stepped with
    | none => none
    | some (g2, rest) =>
      if g2.isRunning then
        some ({ g2 with animationFrameId := some frame }, rest)
      else
        some (g2, rest)

end SnakeGame

/-- The state right after the constructor's field assignments, before its call of `restart()`. -/
def SnakeGame.created : SnakeGame :=
  { snake := []
    direction := Heading.vector DIRECTIONS.RIGHT
    pendingDirection := Heading.vector DIRECTIONS.RIGHT
    food := none
    score := 0
    lastFrameTime := 0
    isRunning := false
    isGameOver := false
    didWin := false
    animationFrameId := none }

/-- The cell lies on the board: both coordinates are at least 0 and below `GRID_SIZE`. -/
def Cell.inGrid (c : Cell) : Prop :=
  0 ≤ c.x ∧ c.x < (GRID_SIZE : Int) ∧ 0 ≤ c.y ∧ c.y < (GRID_SIZE : Int)

instance : DecidablePred Cell.inGrid :=
  fun c => by unfold Cell.inGrid; infer_instance

/-- The segment is a cell of the board. -/
def Segment.onBoard : Segment → Prop
  | Segment.cell c => c.inGrid
  | Segment.nan => False

instance : DecidablePred Segment.onBoard :=
  fun s => by cases s <;> unfold Segment.onBoard <;> infer_instance

/-- The two cells are orthogonal neighbours: `b` is `a` moved by one of UP, DOWN,
LEFT, RIGHT. -/
def Cell.Adjacent (a b : Cell) : Prop :=
  ∃ d ∈ [DIRECTIONS.UP, DIRECTIONS.DOWN, DIRECTIONS.LEFT, DIRECTIONS.RIGHT],
    b = ⟨a.x + d.x, a.y + d.y⟩

instance (a b : Cell) : Decidable (a.Adjacent b) := by
  unfold Cell.Adjacent; infer_instance

/-- The two segments are cells and orthogonal neighbours. -/
def Segment.Adjacent : Segment → Segment → Prop
  | Segment.cell a, Segment.cell b => a.Adjacent b
  | _, _ => False

instance (a b : Segment) : Decidable (a.Adjacent b) := by
  cases a <;> cases b <;> unfold Segment.Adjacent <;> infer_instance

/-- The heading is one of the four `DIRECTIONS`. -/
def Heading.Cardinal (h : Heading) : Prop :=
  h = Heading.vector DIRECTIONS.UP ∨ h = Heading.vector DIRECTIONS.DOWN ∨
    h = Heading.vector DIRECTIONS.LEFT ∨ h = Heading.vector DIRECTIONS.RIGHT

instance (h : Heading) : Decidable h.Cardinal := by
  unfold Heading.Cardinal; infer_instance

namespace SnakeGame

/-- The outcome `lost`, as the three flags `finish(false)` leaves. -/
def Lost (g : SnakeGame) : Prop :=
  g.isGameOver = true ∧ g.didWin = false ∧ g.isRunning = false

/-- The outcome `won`, as the three flags `finish(true)` leaves. -/
def Won (g : SnakeGame) : Prop :=
  g.isGameOver = true ∧ g.didWin = true ∧ g.isRunning = false

/-- The outcome `running`, as the three flags `restart()` leaves. -/
def Running (g : SnakeGame) : Prop :=
  g.isGameOver = false ∧ g.didWin = false ∧ g.isRunning = true

/-- Two states have the same three outcome flags. -/
def SameOutcome (g g' : SnakeGame) : Prop :=
  g'.isGameOver = g.isGameOver ∧ g'.didWin = g.didWin ∧ g'.isRunning = g.isRunning

instance (g : SnakeGame) : Decidable g.Lost := by
  unfold Lost; infer_instance

instance (g : SnakeGame) : Decidable g.Won := by
  unfold Won; infer_instance

instance (g : SnakeGame) : Decidable g.Running := by
  unfold Running; infer_instance

instance (g g' : SnakeGame) : Decidable (g.SameOutcome g') := by
  unfold SameOutcome; infer_instance

/-- The candidate head is the food cell. -/
def HeadOnFood (g : SnakeGame) : Prop :=
  g.food.map Segment.cell = some g.nextHead

instance (g : SnakeGame) : Decidable g.HeadOnFood := by
  unfold HeadOnFood; infer_instance

/-- The losing condition in the words of the specification: the candidate head is
a cell off the board, or it is on a segment of the snake, where the last segment
counts only when the candidate is the food cell. -/
def HitsWallOrBody (g : SnakeGame) : Prop :=
  match g.nextHead with
  | Segment.cell c =>
    ¬ c.inGrid ∨ Segment.cell c ∈ (if g.food = some c then g.snake else g.snake.dropLast)
  | Segment.nan => False

instance (g : SnakeGame) : Decidable g.HitsWallOrBody := by
  unfold HitsWallOrBody; split <;> infer_instance

/-- The state in the middle of an eating `step()`, after the head is pushed and the
score is counted and before the food is replaced. -/
def grown (g : SnakeGame) : SnakeGame :=
  { g with
    direction := g.pendingDirection
    snake := g.nextHead :: g.snake
    score := g.score + 1 }

/-- A game in play used in the examples: the start layout with the food two cells
ahead of the head. -/
def opening : SnakeGame :=
  { snake := [Segment.cell ⟨8, 10⟩, Segment.cell ⟨7, 10⟩, Segment.cell ⟨6, 10⟩]
    direction := Heading.vector DIRECTIONS.RIGHT
    pendingDirection := Heading.vector DIRECTIONS.RIGHT
    food := some ⟨10, 10⟩
    score := 0
    lastFrameTime := 0
    isRunning := true
    isGameOver := false
    didWin := false
    animationFrameId := some 1 }

/-- The opening position with the food on the cell ahead of the head. -/
def aboutToEat : SnakeGame :=
  { opening with food := some ⟨9, 10⟩ }

/-- The opening position with UP pending. -/
def turningUp : SnakeGame :=
  { opening with pendingDirection := Heading.vector DIRECTIONS.UP }

/-- A snake curled in a square, heading for the cell of its own tail. -/
def curled : SnakeGame :=
  { opening with
    snake := [Segment.cell ⟨5, 5⟩, Segment.cell ⟨5, 6⟩, Segment.cell ⟨6, 6⟩,
      Segment.cell ⟨6, 5⟩]
    direction := Heading.vector DIRECTIONS.UP }

/-- The curled snake with the food on the cell of its tail. -/
def curledOnFood : SnakeGame :=
  { curled with food := some ⟨6, 5⟩ }

/-- A snake whose head is on the right edge of the board, heading right. -/
def atWall : SnakeGame :=
  { opening with
    snake := [Segment.cell ⟨19, 10⟩, Segment.cell ⟨18, 10⟩, Segment.cell ⟨17, 10⟩] }

end SnakeGame

/-- The cell number `k` of a path that sweeps the board row by row, left to right
on the even rows and right to left on the odd rows. -/
def serpentine (k : Nat) : Cell :=
  ⟨if (k / GRID_SIZE) % 2 = 0 then ((k % GRID_SIZE : Nat) : Int)
    else ((GRID_SIZE - 1 - k % GRID_SIZE : Nat) : Int), ((k / GRID_SIZE : Nat) : Int)⟩

/-- A snake on every cell of the board but the last of the sweep, with the food on
that cell and the head next to it. -/
def SnakeGame.almostFull : SnakeGame :=
  { SnakeGame.opening with
    snake := ((List.range (GRID_SIZE * GRID_SIZE - 1)).map
      (fun k => Segment.cell (serpentine k))).reverse
    direction := Heading.vector DIRECTIONS.LEFT
    pendingDirection := Heading.vector DIRECTIONS.LEFT
    food := some ⟨0, 19⟩
    score := 396 }

/-- The draws of a run of pairs, in the order the loop of `spawnFood()` takes
them, followed by the draws `tail`. -/
def Draw.pairs (rejected : List (Draw × Draw)) (tail : List Draw) : List Draw :=
  rejected.foldr (fun q acc => q.1 :: q.2 :: acc) tail

/-- The draw `a / GRID_SIZE` for `a < GRID_SIZE`, which `Math.floor(r * GRID_SIZE)` sends to `a`. -/
def Draw.ofIndex (a : Nat) (h : a < GRID_SIZE) : Draw :=
  ⟨a, GRID_SIZE, h⟩

/-- Four draws: the first pair gives the cell (8, 10), the second the cell (3, 4). -/
def Draw.sample : List Draw :=
  [Draw.ofIndex 8 (by decide), Draw.ofIndex 10 (by decide),
    Draw.ofIndex 3 (by decide), Draw.ofIndex 4 (by decide)]

/-- The key of the event, as it is looked up, is no name of a member of
`Object.prototype`; the key values that a keyboard sends are all of this kind. -/
def KeyEvent.Plain (event : KeyEvent) : Prop :=
  SnakeGame.normalizedKey event.key ∉ OBJECT_PROTOTYPE_KEYS

instance (event : KeyEvent) : Decidable event.Plain := by
  unfold KeyEvent.Plain; infer_instance

namespace SnakeGame

/-- The states a game goes through from the constructor's call of `restart()` on,
by calls of `restart()` and `stop()`, key events among those that `allowed`
admits, and callbacks of `loop` at any timestamps, each with any draws and any
handle. -/
inductive ReachableBy (allowed : KeyEvent → Prop) : SnakeGame → Prop where
  | start (rng rest : List Draw) (frame : Nat) (g : SnakeGame) :
      created.restart rng frame = some (g, rest) → ReachableBy allowed g
  | restart (g : SnakeGame) (rng rest : List Draw) (frame : Nat) (g' : SnakeGame) :
      ReachableBy allowed g → g.restart rng frame = some (g', rest) → ReachableBy allowed g'
  | stop (g : SnakeGame) : ReachableBy allowed g → ReachableBy allowed g.stop
  | keydown (g : SnakeGame) (event : KeyEvent) (rng rest : List Draw) (frame : Nat)
      (g' : SnakeGame) :
      ReachableBy allowed g → allowed event →
      g.handleKeydown event rng frame = some (g', rest) → ReachableBy allowed g'
  | loop (g : SnakeGame) (timestamp : Int) (rng rest : List Draw) (frame : Nat)
      (g' : SnakeGame) :
      ReachableBy allowed g → g.loop timestamp rng frame = some (g', rest) →
      ReachableBy allowed g'

/-- The states reachable with any key events whatever. -/
def Reachable (g : SnakeGame) : Prop :=
  ReachableBy (fun _ => True) g

/-- The states reachable with the key events whose key is no name of a member of
`Object.prototype`. -/
def ReachableByKeyboard (g : SnakeGame) : Prop :=
  ReachableBy KeyEvent.Plain g

/-- What holds of the snake, the score and the food in every reachable state. -/
structure Sound (g : SnakeGame) : Prop where
  length : 3 ≤ g.snake.length
  score : g.score = (g.snake.length : Int) - 3
  food : ∀ f, g.food = some f → f.inGrid ∧ Segment.cell f ∉ g.snake
  won : g.food = none → g.Won ∧ ∀ c : Cell, c.inGrid → Segment.cell c ∈ g.snake
  shape : (g.snake.Nodup ∧ ∀ s ∈ g.snake, s.onBoard) ∨ g.snake.head? = some Segment.nan

/-- What holds of the headings and of the snake in every state reachable by the
keyboard: cardinal headings, the pending one not the reverse of the applied one,
and a snake of distinct cells of the board, each next to the one before, the
second one cell behind the head. -/
structure Tidy (g : SnakeGame) : Prop where
  direction : g.direction.Cardinal
  pending : g.pendingDirection.Cardinal
  notOpposite : g.direction.isOpposite g.pendingDirection = false
  length : 3 ≤ g.snake.length
  onBoard : ∀ s ∈ g.snake, s.onBoard
  nodup : g.snake.Nodup
  chain : g.snake.Chain' (fun a b => b.Adjacent a)
  neck : ∀ h n rest, g.snake = h :: n :: rest → h = n.moved g.direction

/-- The opening position with the last tick committed at 1000 ms. -/
def ticking : SnakeGame :=
  { opening with lastFrameTime := 1000 }

/-- The second segment is the head minus `direction`. -/
def NeckBehindHead (g : SnakeGame) : Prop :=
  ∃ (a : Cell) (d : Direction) (rest : List Segment),
    g.direction = Heading.vector d ∧
    g.snake = Segment.cell a :: Segment.cell ⟨a.x - d.x, a.y - d.y⟩ :: rest

/-- The game right after the constructor, with the food drawn on (3, 4). -/
def fresh : SnakeGame :=
  { opening with food := some ⟨3, 4⟩ }

/-- The fresh game after a key event whose key is `constructor`. -/
def misled : SnakeGame :=
  { fresh with pendingDirection := Heading.member }

/-- The misled game after a first callback at 1000 ms and a tick 110 ms later. -/
def ghost : SnakeGame :=
  { fresh with
    snake := [Segment.nan, Segment.cell ⟨8, 10⟩, Segment.cell ⟨7, 10⟩]
    direction := Heading.member
    pendingDirection := Heading.member
    lastFrameTime := 1110
    animationFrameId := some 3 }

end SnakeGame

/-! ## Auxiliary facts -/

section Auxiliary

open SnakeGame

theorem sameAs_cell_iff (s : Segment) (c : Cell) :
    s.sameAs (Segment.cell c) = true ↔ s = Segment.cell c := by
  cases s with
  | nan => simp [Segment.sameAs]
  | cell a =>
    obtain ⟨ax, ay⟩ := a
    obtain ⟨cx, cy⟩ := c
    simp [Segment.sameAs]

theorem sameAs_nan (s : Segment) : s.sameAs Segment.nan = false := by
  cases s <;> rfl

theorem any_sameAs_cell (l : List Segment) (c : Cell) :
    l.any (fun segment => segment.sameAs (Segment.cell c)) = true ↔ Segment.cell c ∈ l := by
  rw [List.any_eq_true]
  constructor
  · rintro ⟨s, hs, h⟩
    rw [sameAs_cell_iff] at h
    exact h ▸ hs
  · intro h
    exact ⟨_, h, (sameAs_cell_iff _ _).2 rfl⟩

theorem any_sameAs_nan (l : List Segment) :
    l.any (fun segment => segment.sameAs Segment.nan) = false := by
  induction l with
  | nil => rfl
  | cons a t ih => simp [List.any_cons, sameAs_nan, ih]

theorem outOfBounds_cell_iff (c : Cell) :
    (Segment.cell c).outOfBounds = true ↔ ¬ c.inGrid := by
  unfold Segment.outOfBounds Cell.inGrid
  simp only [Bool.or_eq_true, decide_eq_true_eq]
  omega

theorem didCollide_nan (g : SnakeGame) (w : Bool) : g.didCollide Segment.nan w = false := by
  simp [didCollide, Segment.outOfBounds, any_sameAs_nan]

theorem didCollide_cell_iff (g : SnakeGame) (c : Cell) (w : Bool) :
    g.didCollide (Segment.cell c) w = true ↔
      ¬ c.inGrid ∨ Segment.cell c ∈ (if w = true then g.snake else g.snake.dropLast) := by
  unfold didCollide
  by_cases hb : (Segment.cell c).outOfBounds = true
  · simp only [hb, if_true, true_iff]
    exact Or.inl ((outOfBounds_cell_iff c).1 hb)
  · have hin : ¬ ¬ c.inGrid := fun h => hb ((outOfBounds_cell_iff c).2 h)
    simp only [hb, Bool.false_eq_true, if_false]
    rw [any_sameAs_cell]
    constructor
    · intro hm
      right
      cases w <;> simpa using hm
    · rintro (hn | hm)
      · exact absurd hn hin
      · cases w <;> simpa using hm

theorem isEating_eq_true_iff (g : SnakeGame) (head : Segment) :
    g.isEating head = true ↔ ∃ f, g.food = some f ∧ head = Segment.cell f := by
  unfold isEating
  cases hf : g.food with
  | none => simp
  | some f =>
    rw [sameAs_cell_iff]
    simp

theorem isEating_nextHead_iff (g : SnakeGame) :
    g.isEating g.nextHead = true ↔ g.HeadOnFood := by
  rw [isEating_eq_true_iff]
  unfold HeadOnFood
  cases hf : g.food with
  | none => simp
  | some f =>
    simp only [Option.some.injEq, exists_eq_left', Option.map_some']
    exact eq_comm

theorem isEating_cell_iff (g : SnakeGame) (c : Cell) :
    g.isEating (Segment.cell c) = true ↔ g.food = some c := by
  rw [isEating_eq_true_iff]
  constructor
  · rintro ⟨f, hf, h⟩
    rw [hf, Segment.cell.inj h]
  · intro h
    exact ⟨c, h, rfl⟩

theorem isEating_nan (g : SnakeGame) : g.isEating Segment.nan = false := by
  cases h : g.isEating Segment.nan with
  | false => rfl
  | true =>
    obtain ⟨f, _, hf⟩ := (isEating_eq_true_iff g _).1 h
    exact Segment.noConfusion hf

theorem didCollide_iff_hitsWallOrBody (g : SnakeGame) :
    g.didCollide g.nextHead (g.isEating g.nextHead) = true ↔ g.HitsWallOrBody := by
  unfold HitsWallOrBody
  cases hh : g.nextHead with
  | nan => simp [didCollide_nan]
  | cell c =>
    simp only
    rw [didCollide_cell_iff]
    by_cases hf : g.food = some c
    · simp [hf, (isEating_cell_iff g c).2 hf]
    · have he : ¬ g.isEating (Segment.cell c) = true := fun h => hf ((isEating_cell_iff g c).1 h)
      simp [hf, he]

theorem dropLast_cons_of_ne_nil {α : Type} (a : α) {l : List α} (h : l ≠ []) :
    (a :: l).dropLast = a :: l.dropLast := by
  cases l with
  | nil => exact absurd rfl h
  | cons b t => rfl

theorem step_of_collision {g : SnakeGame} (rng : List Draw)
    (hc : g.didCollide g.nextHead (g.isEating g.nextHead) = true) :
    g.step rng = some (g.finish false, rng) := by
  simp [step, hc]

theorem step_of_move {g : SnakeGame} (rng : List Draw)
    (hc : g.didCollide g.nextHead (g.isEating g.nextHead) = false)
    (he : g.isEating g.nextHead = false) :
    g.step rng =
      some ({ g with
        direction := g.pendingDirection
        snake := (g.nextHead :: g.snake).dropLast }, rng) := by
  rw [he] at hc
  simp [step, hc, he]

theorem step_of_eat_full {g : SnakeGame} (rng : List Draw)
    (hc : g.didCollide g.nextHead (g.isEating g.nextHead) = false)
    (he : g.isEating g.nextHead = true) (hlen : g.snake.length + 1 = GRID_SIZE * GRID_SIZE) :
    g.step rng = some (({ g.grown with food := none }).finish true, rng) := by
  rw [he] at hc
  simp [step, hc, he, spawnFood, hlen, grown]

theorem step_of_eat_over {g : SnakeGame} (rng : List Draw)
    (hc : g.didCollide g.nextHead (g.isEating g.nextHead) = false)
    (he : g.isEating g.nextHead = true) (hlen : GRID_SIZE * GRID_SIZE < g.snake.length + 1) :
    g.step rng = some ({ g.grown with food := none }, rng) := by
  have h1 : GRID_SIZE * GRID_SIZE ≤ g.snake.length + 1 := Nat.le_of_lt hlen
  have h2 : ¬ g.snake.length + 1 = GRID_SIZE * GRID_SIZE := by omega
  rw [he] at hc
  simp [step, hc, he, spawnFood, h1, h2, grown]

theorem step_of_eat_room {g : SnakeGame} (rng : List Draw)
    (hc : g.didCollide g.nextHead (g.isEating g.nextHead) = false)
    (he : g.isEating g.nextHead = true) (hlen : g.snake.length + 1 < GRID_SIZE * GRID_SIZE) :
    g.step rng = (spawnLoop (g.nextHead :: g.snake) rng).map
      (fun p => ({ g.grown with food := some p.1 }, p.2)) := by
  have h1 : ¬ GRID_SIZE * GRID_SIZE ≤ g.snake.length + 1 := by omega
  rw [he] at hc
  simp only [step, hc, he, spawnFood, grown, Bool.false_eq_true, if_false, if_true,
    List.length_cons, ge_iff_le, h1]
  cases spawnLoop (g.nextHead :: g.snake) rng with
  | none => simp
  | some p => simp

theorem Draw.scaled_nonneg (r : Draw) : 0 ≤ r.scaled := by
  unfold Draw.scaled
  exact Int.ofNat_nonneg _

theorem Draw.scaled_lt (r : Draw) : r.scaled < (GRID_SIZE : Int) := by
  unfold Draw.scaled
  have hd : 0 < r.den := Nat.lt_of_le_of_lt (Nat.zero_le _) r.lt
  have h : r.num * GRID_SIZE / r.den < GRID_SIZE := by
    rw [Nat.div_lt_iff_lt_mul hd]
    have := r.lt
    unfold GRID_SIZE
    omega
  exact_mod_cast h

theorem Draw.scaled_ofIndex (a : Nat) (h : a < GRID_SIZE) :
    (Draw.ofIndex a h).scaled = (a : Int) := by
  unfold Draw.scaled Draw.ofIndex
  simp [GRID_SIZE]

theorem spawnLoop_some (occupied : List Segment) :
    ∀ (rng : List Draw) (c : Cell) (rest : List Draw),
      spawnLoop occupied rng = some (c, rest) → c.inGrid ∧ Segment.cell c ∉ occupied
  | [], c, rest, h => by simp [spawnLoop] at h
  | [_], c, rest, h => by simp [spawnLoop] at h
  | rx :: ry :: tl, c, rest, h => by
    rw [spawnLoop] at h
    by_cases hocc : occupied.contains (Segment.cell ⟨rx.scaled, ry.scaled⟩) = true
    · simp only [hocc, if_true] at h
      exact spawnLoop_some occupied tl c rest h
    · simp only [hocc] at h
      simp only [Bool.false_eq_true, if_false, Option.some.injEq, Prod.mk.injEq] at h
      obtain ⟨rfl, _⟩ := h
      refine ⟨⟨rx.scaled_nonneg, rx.scaled_lt, ry.scaled_nonneg, ry.scaled_lt⟩, ?_⟩
      simpa using hocc

/-- A run of draws all of whose pairs are rejected, followed by a pair that is
accepted: the loop returns the accepted cell. -/
theorem spawnLoop_of_free (occupied : List Segment) (rx ry : Draw) (rest : List Draw)
    (hfree : Segment.cell ⟨rx.scaled, ry.scaled⟩ ∉ occupied) :
    ∀ (rejected : List (Draw × Draw)),
      (∀ q ∈ rejected, Segment.cell ⟨q.1.scaled, q.2.scaled⟩ ∈ occupied) →
      spawnLoop occupied (Draw.pairs rejected (rx :: ry :: rest))
        = some (⟨rx.scaled, ry.scaled⟩, rest)
  | [], _ => by
    simp [Draw.pairs, spawnLoop, hfree]
  | q :: qs, hq => by
    have h1 : Segment.cell ⟨q.1.scaled, q.2.scaled⟩ ∈ occupied := hq q (List.mem_cons_self _ _)
    have h2 := spawnLoop_of_free occupied rx ry rest hfree qs
      (fun r hr => hq r (List.mem_cons_of_mem _ hr))
    unfold Draw.pairs at h2 ⊢
    simp only [List.foldr_cons]
    rw [spawnLoop]
    simp [h1, h2]

/-- The board, as the finite set of its cells, has `GRID_SIZE * GRID_SIZE` cells. -/
theorem gridCells_card :
    ((Finset.range GRID_SIZE ×ˢ Finset.range GRID_SIZE).image
      (fun p : Nat × Nat => Segment.cell ⟨(p.1 : Int), (p.2 : Int)⟩)).card
        = GRID_SIZE * GRID_SIZE := by
  rw [Finset.card_image_of_injective, Finset.card_product, Finset.card_range]
  intro p q h
  simp only [Segment.cell.injEq, Cell.mk.injEq, Nat.cast_inj] at h
  exact Prod.ext h.1 h.2

theorem mem_gridCells_iff (s : Segment) :
    s ∈ (Finset.range GRID_SIZE ×ˢ Finset.range GRID_SIZE).image
      (fun p : Nat × Nat => Segment.cell ⟨(p.1 : Int), (p.2 : Int)⟩) ↔ s.onBoard := by
  simp only [Finset.mem_image, Finset.mem_product, Finset.mem_range, Prod.exists]
  constructor
  · rintro ⟨a, b, ⟨ha, hb⟩, rfl⟩
    simp only [Segment.onBoard, Cell.inGrid]
    omega
  · intro h
    cases s with
    | nan => exact absurd h (by simp [Segment.onBoard])
    | cell c =>
      obtain ⟨h1, h2, h3, h4⟩ := h
      refine ⟨c.x.toNat, c.y.toNat, ⟨by omega, by omega⟩, ?_⟩
      obtain ⟨cx, cy⟩ := c
      simp only [Segment.cell.injEq, Cell.mk.injEq] at *
      omega

/-- Fewer segments than cells: some cell of the board is not a segment. -/
theorem exists_free_cell (l : List Segment) (h : l.length < GRID_SIZE * GRID_SIZE) :
    ∃ c : Cell, c.inGrid ∧ Segment.cell c ∉ l := by
  by_contra hno
  push_neg at hno
  have hsub : (Finset.range GRID_SIZE ×ˢ Finset.range GRID_SIZE).image
      (fun p : Nat × Nat => Segment.cell ⟨(p.1 : Int), (p.2 : Int)⟩) ⊆ l.toFinset := by
    intro s hs
    rw [List.mem_toFinset]
    cases s with
    | nan => exact absurd ((mem_gridCells_iff _).1 hs) (by simp [Segment.onBoard])
    | cell c => exact hno c ((mem_gridCells_iff _).1 hs)
  have h1 := Finset.card_le_card hsub
  rw [gridCells_card] at h1
  have h2 := List.toFinset_card_le l
  omega

/-- Pairwise distinct segments on the board, as many as there are cells: every
cell of the board is a segment. -/
theorem full_of_nodup (l : List Segment) (hd : l.Nodup) (hg : ∀ s ∈ l, s.onBoard)
    (h : GRID_SIZE * GRID_SIZE ≤ l.length) : ∀ c : Cell, c.inGrid → Segment.cell c ∈ l := by
  have hsub : l.toFinset ⊆ (Finset.range GRID_SIZE ×ˢ Finset.range GRID_SIZE).image
      (fun p : Nat × Nat => Segment.cell ⟨(p.1 : Int), (p.2 : Int)⟩) := by
    intro s hs
    rw [List.mem_toFinset] at hs
    exact (mem_gridCells_iff s).2 (hg s hs)
  have hcard : l.toFinset.card = l.length := List.toFinset_card_of_nodup hd
  have heq := Finset.eq_of_subset_of_card_le hsub (by rw [gridCells_card, hcard]; exact h)
  intro c hc
  rw [← List.mem_toFinset, heq]
  exact (mem_gridCells_iff _).2 hc

/-- Pairwise distinct segments on the board are at most as many as the cells. -/
theorem length_le_of_nodup (l : List Segment) (hd : l.Nodup) (hg : ∀ s ∈ l, s.onBoard) :
    l.length ≤ GRID_SIZE * GRID_SIZE := by
  have hsub : l.toFinset ⊆ (Finset.range GRID_SIZE ×ˢ Finset.range GRID_SIZE).image
      (fun p : Nat × Nat => Segment.cell ⟨(p.1 : Int), (p.2 : Int)⟩) := by
    intro s hs
    rw [List.mem_toFinset] at hs
    exact (mem_gridCells_iff s).2 (hg s hs)
  have h1 := Finset.card_le_card hsub
  rw [gridCells_card, List.toFinset_card_of_nodup hd] at h1
  exact h1

/-- A cell of the board is the cell that some pair of draws gives. -/
theorem exists_draws_of_inGrid (c : Cell) (hc : c.inGrid) :
    ∃ rx ry : Draw, (⟨rx.scaled, ry.scaled⟩ : Cell) = c := by
  obtain ⟨h1, h2, h3, h4⟩ := hc
  have hx : c.x.toNat < GRID_SIZE := by omega
  have hy : c.y.toNat < GRID_SIZE := by omega
  refine ⟨Draw.ofIndex c.x.toNat hx, Draw.ofIndex c.y.toNat hy, ?_⟩
  rw [Draw.scaled_ofIndex, Draw.scaled_ofIndex]
  obtain ⟨cx, cy⟩ := c
  simp only [Cell.mk.injEq] at *
  omega

/-- An eating `step()` that does not collide returns once the draws hold a pair
for a free cell. -/
theorem step_eat_returns {g : SnakeGame}
    (hc : g.didCollide g.nextHead (g.isEating g.nextHead) = false)
    (he : g.isEating g.nextHead = true) :
    ∃ (rng : List Draw) (g' : SnakeGame) (rest : List Draw), g.step rng = some (g', rest) := by
  rcases Nat.lt_trichotomy (g.snake.length + 1) (GRID_SIZE * GRID_SIZE) with hlt | heq | hgt
  · obtain ⟨c, hcg, hcn⟩ := exists_free_cell (g.nextHead :: g.snake) (by simpa using hlt)
    obtain ⟨rx, ry, hxy⟩ := exists_draws_of_inGrid c hcg
    have hl := spawnLoop_of_free (g.nextHead :: g.snake) rx ry []
      (by rw [hxy]; exact hcn) [] (by simp)
    simp only [Draw.pairs, List.foldr_nil] at hl
    refine ⟨[rx, ry], { g.grown with food := some ⟨rx.scaled, ry.scaled⟩ }, [], ?_⟩
    rw [step_of_eat_room _ hc he hlt, hl]
    rfl
  · exact ⟨[], _, _, step_of_eat_full [] hc he heq⟩
  · exact ⟨[], _, _, step_of_eat_over [] hc he hgt⟩

/-- What an eating `step()` that does not collide leaves, whenever it returns: the
pushed head, the counted score, and the three outcome flags either untouched or
set by `finish(true)`, the latter exactly when the snake now fills the board. -/
theorem step_eat_result {g : SnakeGame} {rng rest : List Draw} {g' : SnakeGame}
    (hc : g.didCollide g.nextHead (g.isEating g.nextHead) = false)
    (he : g.isEating g.nextHead = true) (hs : g.step rng = some (g', rest)) :
    g'.snake = g.nextHead :: g.snake ∧ g'.score = g.score + 1 ∧
      g'.direction = g.pendingDirection ∧ g'.pendingDirection = g.pendingDirection ∧
      ((g.snake.length + 1 = GRID_SIZE * GRID_SIZE ∧ g'.Won ∧ g'.food = none) ∨
        (g.snake.length + 1 ≠ GRID_SIZE * GRID_SIZE ∧ g.SameOutcome g')) := by
  rcases Nat.lt_trichotomy (g.snake.length + 1) (GRID_SIZE * GRID_SIZE) with hlt | heq | hgt
  · rw [step_of_eat_room _ hc he hlt] at hs
    cases hl : spawnLoop (g.nextHead :: g.snake) rng with
    | none => simp [hl] at hs
    | some p =>
      simp only [hl, Option.map_some', Option.some.injEq, Prod.mk.injEq] at hs
      obtain ⟨rfl, _⟩ := hs
      refine ⟨rfl, rfl, rfl, rfl, Or.inr ⟨by omega, rfl, rfl, rfl⟩⟩
  · rw [step_of_eat_full _ hc he heq] at hs
    simp only [Option.some.injEq, Prod.mk.injEq] at hs
    obtain ⟨rfl, _⟩ := hs
    exact ⟨rfl, rfl, rfl, rfl, Or.inl ⟨heq, ⟨rfl, rfl, rfl⟩, rfl⟩⟩
  · rw [step_of_eat_over _ hc he hgt] at hs
    simp only [Option.some.injEq, Prod.mk.injEq] at hs
    obtain ⟨rfl, _⟩ := hs
    refine ⟨rfl, rfl, rfl, rfl, Or.inr ⟨by omega, rfl, rfl, rfl⟩⟩

theorem step_lastFrameTime {g : SnakeGame} {rng : List Draw} {p : SnakeGame × List Draw}
    (hs : g.step rng = some p) : p.1.lastFrameTime = g.lastFrameTime := by
  obtain ⟨g', rest⟩ := p
  cases hc : g.didCollide g.nextHead (g.isEating g.nextHead) with
  | true =>
    rw [step_of_collision rng hc] at hs
    simp only [Option.some.injEq, Prod.mk.injEq] at hs
    obtain ⟨rfl, _⟩ := hs
    rfl
  | false =>
    cases he : g.isEating g.nextHead with
    | false =>
      rw [step_of_move rng hc he] at hs
      simp only [Option.some.injEq, Prod.mk.injEq] at hs
      obtain ⟨rfl, _⟩ := hs
      rfl
    | true =>
      rcases Nat.lt_trichotomy (g.snake.length + 1) (GRID_SIZE * GRID_SIZE) with hlt | heq | hgt
      · rw [step_of_eat_room _ hc he hlt] at hs
        cases hl : spawnLoop (g.nextHead :: g.snake) rng with
        | none => simp [hl] at hs
        | some q =>
          simp only [hl, Option.map_some', Option.some.injEq, Prod.mk.injEq] at hs
          obtain ⟨rfl, _⟩ := hs
          rfl
      · rw [step_of_eat_full _ hc he heq] at hs
        simp only [Option.some.injEq, Prod.mk.injEq] at hs
        obtain ⟨rfl, _⟩ := hs
        rfl
      · rw [step_of_eat_over _ hc he hgt] at hs
        simp only [Option.some.injEq, Prod.mk.injEq] at hs
        obtain ⟨rfl, _⟩ := hs
        rfl

end Auxiliary

/-! ## What every reachable state satisfies -/

section Invariant

open SnakeGame

theorem restart_some {g0 g : SnakeGame} {rng rest : List Draw} {frame : Nat}
    (h : g0.restart rng frame = some (g, rest)) :
    ∃ c : Cell, c.inGrid ∧
      Segment.cell c ∉ [Segment.cell ⟨8, 10⟩, Segment.cell ⟨7, 10⟩, Segment.cell ⟨6, 10⟩] ∧
      g = { snake := [Segment.cell ⟨8, 10⟩, Segment.cell ⟨7, 10⟩, Segment.cell ⟨6, 10⟩]
            direction := Heading.vector DIRECTIONS.RIGHT
            pendingDirection := Heading.vector DIRECTIONS.RIGHT
            food := some c
            score := 0
            lastFrameTime := 0
            isRunning := true
            isGameOver := false
            didWin := false
            animationFrameId := some frame } := by
  unfold restart at h
  simp only [spawnFood, List.length_cons, List.length_nil, GRID_SIZE] at h
  simp only [ge_iff_le, Nat.reduceMul, Nat.reduceAdd, Nat.reduceLeDiff, if_false] at h
  cases hl : spawnLoop
      [Segment.cell ⟨8, 10⟩, Segment.cell ⟨7, 10⟩, Segment.cell ⟨6, 10⟩] rng with
  | none => simp [hl] at h
  | some p =>
    simp only [hl, Option.some.injEq, Prod.mk.injEq] at h
    obtain ⟨rfl, _⟩ := h
    have hp := spawnLoop_some _ rng p.1 p.2 hl
    exact ⟨p.1, hp.1, hp.2, rfl⟩

theorem handleKeydown_some {g g' : SnakeGame} {event : KeyEvent} {rng rest : List Draw}
    {frame : Nat} (h : g.handleKeydown event rng frame = some (g', rest)) :
    g.restart rng frame = some (g', rest) ∨ g' = g ∨
      (g.isGameOver = false ∧ event.code ≠ "Space" ∧
        ∃ next, lookupBinding (normalizedKey event.key) = some next ∧
          g.direction.isOpposite next = false ∧ g' = { g with pendingDirection := next }) := by
  unfold handleKeydown at h
  by_cases hcode : event.code = "Space"
  · simp only [hcode, if_true] at h
    exact Or.inl h
  · simp only [hcode, if_false] at h
    by_cases hover : g.isGameOver = true
    · simp only [hover, if_true, Option.some.injEq, Prod.mk.injEq] at h
      exact Or.inr (Or.inl h.1.symm)
    · simp only [hover, Bool.false_eq_true, if_false] at h
      cases hl : lookupBinding (normalizedKey event.key) with
      | none =>
        simp only [hl, Option.some.injEq, Prod.mk.injEq] at h
        exact Or.inr (Or.inl h.1.symm)
      | some next =>
        simp only [hl] at h
        by_cases hopp : g.direction.isOpposite next = true
        · simp only [hopp, if_true, Option.some.injEq, Prod.mk.injEq] at h
          exact Or.inr (Or.inl h.1.symm)
        · simp only [hopp, Bool.false_eq_true, if_false, Option.some.injEq, Prod.mk.injEq] at h
          have hover2 : g.isGameOver = false := by simpa using hover
          refine Or.inr (Or.inr ⟨hover2, hcode, next, rfl, by simpa using hopp, ?_⟩)
          rw [← h.1]
          simp [hover2]

theorem loop_some {g g' : SnakeGame} {t : Int} {rng rest : List Draw} {frame : Nat}
    (h : g.loop t rng frame = some (g', rest)) :
    (g' = g ∨
      ∃ last id, g' = { g with lastFrameTime := last, animationFrameId := id }) ∨
    (g.isRunning = true ∧
      ∃ g2, step { g with lastFrameTime := t } rng = some (g2, rest) ∧
        (g' = g2 ∨ g' = { g2 with animationFrameId := some frame })) := by
  unfold loop at h
  by_cases hrun : g.isRunning = true
  · simp only [hrun, Bool.not_true, Bool.false_eq_true, if_false] at h
    by_cases h0 : g.lastFrameTime = 0
    · have hn : ¬ MOVE_INTERVAL_MS ≤ t - t := by
        simp only [sub_self]
        decide
      simp only [h0, if_true, ge_iff_le, hn, if_false, hrun, Option.some.injEq,
        Prod.mk.injEq] at h
      exact Or.inl (Or.inr ⟨t, some frame, by rw [← h.1]; simp [hrun]⟩)
    · simp only [h0, if_false, ge_iff_le] at h
      by_cases hge : MOVE_INTERVAL_MS ≤ t - g.lastFrameTime
      · simp only [hge, if_true] at h
        cases hs : step { g with lastFrameTime := t } rng with
        | none => simp [hs] at h
        | some p =>
          obtain ⟨g2, r2⟩ := p
          simp only [hs] at h
          by_cases hr2 : g2.isRunning = true
          · simp only [hr2, if_true, Option.some.injEq, Prod.mk.injEq] at h
            obtain ⟨h1, rfl⟩ := h
            exact Or.inr ⟨hrun, g2, rfl, Or.inr (by rw [← h1]; simp [hr2])⟩
          · simp only [hr2, Bool.false_eq_true, if_false, Option.some.injEq,
              Prod.mk.injEq] at h
            obtain ⟨h1, rfl⟩ := h
            exact Or.inr ⟨hrun, g2, rfl, Or.inl h1.symm⟩
      · simp only [hge, if_false, hrun, if_true, Option.some.injEq, Prod.mk.injEq] at h
        exact Or.inl (Or.inr ⟨g.lastFrameTime, some frame, by rw [← h.1]; simp [hrun]⟩)
  · simp only [hrun, Bool.not_false, if_true, Option.some.injEq, Prod.mk.injEq] at h
    · exact Or.inl (Or.inl h.1.symm)

theorem stop_eq (g : SnakeGame) :
    ∃ id, g.stop = { g with isRunning := false, animationFrameId := id } := by
  unfold stop
  cases hid : g.animationFrameId with
  | none => exact ⟨none, by simp [hid]⟩
  | some id =>
    by_cases h0 : id = 0
    · exact ⟨some 0, by simp [h0]⟩
    · exact ⟨none, by simp [h0]⟩

end Invariant

section SoundStates

open SnakeGame

theorem sound_congr {g g' : SnakeGame} (h : g.Sound) (hs : g'.snake = g.snake)
    (hsc : g'.score = g.score) (hf : g'.food = g.food) (hw : g.Won → g'.Won) : g'.Sound where
  length := by rw [hs]; exact h.length
  score := by rw [hs, hsc]; exact h.score
  food := by rw [hs, hf]; exact h.food
  won := by
    rw [hs, hf]
    intro hn
    exact ⟨hw (h.won hn).1, (h.won hn).2⟩
  shape := by rw [hs]; exact h.shape

theorem sound_restart {g0 g : SnakeGame} {rng rest : List Draw} {frame : Nat}
    (h : g0.restart rng frame = some (g, rest)) : g.Sound := by
  obtain ⟨c, hc, hn, rfl⟩ := restart_some h
  exact
    { length := by simp
      score := by simp
      food := by
        intro f hf
        simp only [Option.some.injEq] at hf
        subst hf
        exact ⟨hc, hn⟩
      won := by intro hn; simp at hn
      shape := by
        left
        show ([Segment.cell ⟨8, 10⟩, Segment.cell ⟨7, 10⟩, Segment.cell ⟨6, 10⟩] :
            List Segment).Nodup ∧
          ∀ s ∈ ([Segment.cell ⟨8, 10⟩, Segment.cell ⟨7, 10⟩, Segment.cell ⟨6, 10⟩] :
            List Segment), s.onBoard
        decide }

theorem sound_stop {g : SnakeGame} (h : g.Sound) : g.stop.Sound := by
  obtain ⟨id, hid⟩ := stop_eq g
  rw [hid]
  exact sound_congr h rfl rfl rfl (fun hw => ⟨hw.1, hw.2.1, rfl⟩)

theorem sound_keydown {g g' : SnakeGame} {event : KeyEvent} {rng rest : List Draw}
    {frame : Nat} (h : g.Sound) (hk : g.handleKeydown event rng frame = some (g', rest)) :
    g'.Sound := by
  rcases handleKeydown_some hk with hr | rfl | ⟨_, _, next, _, _, rfl⟩
  · exact sound_restart hr
  · exact h
  · exact sound_congr h rfl rfl rfl (fun hw => hw)

theorem nextHead_of_head_nan {g : SnakeGame} (h : g.snake.head? = some Segment.nan) :
    g.nextHead = Segment.nan := by
  unfold nextHead
  cases hs : g.snake with
  | nil => rfl
  | cons first tail =>
    rw [hs] at h
    simp only [List.head?_cons, Option.some.injEq] at h
    subst h
    rfl

theorem clean_of_nextHead_cell {g : SnakeGame} (h : g.Sound) {c : Cell}
    (hh : g.nextHead = Segment.cell c) : g.snake.Nodup ∧ ∀ s ∈ g.snake, s.onBoard := by
  rcases h.shape with hcl | hn
  · exact hcl
  · rw [nextHead_of_head_nan hn] at hh
    exact Segment.noConfusion hh

theorem snake_ne_nil_of_sound {g : SnakeGame} (h : g.Sound) : g.snake ≠ [] := by
  intro hs
  have := h.length
  rw [hs] at this
  simp at this

theorem sound_step {g g' : SnakeGame} {rng rest : List Draw} (h : g.Sound)
    (hrun : g.isRunning = true) (hs : g.step rng = some (g', rest)) : g'.Sound := by
  have hfood : ∃ f, g.food = some f := by
    cases hf : g.food with
    | some f => exact ⟨f, rfl⟩
    | none =>
      have := (h.won hf).1.2.2
      rw [hrun] at this
      exact Bool.noConfusion this
  obtain ⟨f, hf⟩ := hfood
  have hne := snake_ne_nil_of_sound h
  cases hc : g.didCollide g.nextHead (g.isEating g.nextHead) with
  | true =>
    rw [step_of_collision rng hc] at hs
    simp only [Option.some.injEq, Prod.mk.injEq] at hs
    obtain ⟨rfl, _⟩ := hs
    exact
      { length := h.length
        score := h.score
        food := h.food
        won := by
          intro hn
          have : g.food = none := hn
          rw [hf] at this
          exact Option.noConfusion this
        shape := h.shape }
  | false =>
    cases he : g.isEating g.nextHead with
    | false =>
      rw [step_of_move rng hc he, dropLast_cons_of_ne_nil _ hne] at hs
      simp only [Option.some.injEq, Prod.mk.injEq] at hs
      obtain ⟨rfl, _⟩ := hs
      have hlen : (g.nextHead :: g.snake.dropLast).length = g.snake.length := by
        have : 0 < g.snake.length := List.length_pos.2 hne
        simp only [List.length_cons, List.length_dropLast]
        omega
      exact
        { length := by
            show 3 ≤ (g.nextHead :: g.snake.dropLast).length
            rw [hlen]; exact h.length
          score := by
            show g.score = ((g.nextHead :: g.snake.dropLast).length : Int) - 3
            rw [hlen]; exact h.score
          food := by
            intro f' hf'
            have hf2 : g.food = some f' := hf'
            refine ⟨(h.food f' hf2).1, ?_⟩
            show Segment.cell f' ∉ g.nextHead :: g.snake.dropLast
            intro hm
            rcases List.mem_cons.1 hm with hm | hm
            · have : g.isEating g.nextHead = true :=
                (isEating_eq_true_iff g _).2 ⟨f', hf2, hm.symm⟩
              rw [he] at this
              exact Bool.noConfusion this
            · exact (h.food f' hf2).2 ((List.dropLast_sublist _).subset hm)
          won := by
            intro hn
            have : g.food = none := hn
            rw [hf] at this
            exact Option.noConfusion this
          shape := by
            show ((g.nextHead :: g.snake.dropLast).Nodup ∧
                ∀ s ∈ g.nextHead :: g.snake.dropLast, s.onBoard) ∨
              (g.nextHead :: g.snake.dropLast).head? = some Segment.nan
            cases hh : g.nextHead with
            | nan => exact Or.inr rfl
            | cell c =>
              left
              obtain ⟨hnd, hob⟩ := clean_of_nextHead_cell h hh
              rw [he, hh] at hc
              have hcol := didCollide_cell_iff g c false
              rw [hc] at hcol
              simp only [Bool.false_eq_true, if_false, false_iff, not_or, not_not] at hcol
              constructor
              · exact List.nodup_cons.2 ⟨hcol.2, hnd.sublist (List.dropLast_sublist _)⟩
              · intro s hs
                rcases List.mem_cons.1 hs with rfl | hs
                · exact hcol.1
                · exact hob s ((List.dropLast_sublist _).subset hs) }
    | true =>
      obtain ⟨f', hf', hh⟩ := (isEating_eq_true_iff g _).1 he
      have hff : f' = f := by
        rw [hf] at hf'
        exact (Option.some.inj hf').symm
      subst hff
      obtain ⟨hnd, hob⟩ := clean_of_nextHead_cell h hh
      have hfin := h.food f' hf
      have hnd' : (g.nextHead :: g.snake).Nodup := by
        rw [hh]
        exact List.nodup_cons.2 ⟨hfin.2, hnd⟩
      have hob' : ∀ s ∈ g.nextHead :: g.snake, s.onBoard := by
        intro s hs
        rcases List.mem_cons.1 hs with rfl | hs
        · rw [hh]; exact hfin.1
        · exact hob s hs
      have hle := length_le_of_nodup _ hnd' hob'
      simp only [List.length_cons] at hle
      have hscore : g.score + 1 = ((g.nextHead :: g.snake).length : Int) - 3 := by
        have := h.score
        simp only [List.length_cons, Nat.cast_add, Nat.cast_one]
        omega
      have hlen3 : 3 ≤ (g.nextHead :: g.snake).length := by
        have := h.length
        simp only [List.length_cons]
        omega
      rcases Nat.lt_or_ge (g.snake.length + 1) (GRID_SIZE * GRID_SIZE) with hlt | hge
      · rw [step_of_eat_room rng hc he hlt] at hs
        cases hl : spawnLoop (g.nextHead :: g.snake) rng with
        | none => simp [hl] at hs
        | some p =>
          simp only [hl, Option.map_some', Option.some.injEq, Prod.mk.injEq] at hs
          obtain ⟨rfl, _⟩ := hs
          have hp := spawnLoop_some _ rng p.1 p.2 hl
          exact
            { length := hlen3
              score := hscore
              food := by
                intro c hc'
                have : some p.1 = some c := hc'
                rw [← Option.some.inj this]
                exact hp
              won := by
                intro hn
                have : some p.1 = (none : Option Cell) := hn
                exact Option.noConfusion this
              shape := Or.inl ⟨hnd', hob'⟩ }
      · have heq : g.snake.length + 1 = GRID_SIZE * GRID_SIZE := by omega
        rw [step_of_eat_full rng hc he heq] at hs
        simp only [Option.some.injEq, Prod.mk.injEq] at hs
        obtain ⟨rfl, _⟩ := hs
        have hall := full_of_nodup (g.nextHead :: g.snake) hnd' hob'
          (by rw [List.length_cons]; omega)
        exact
          { length := hlen3
            score := hscore
            food := by
              intro c hc'
              have : (none : Option Cell) = some c := hc'
              exact Option.noConfusion this
            won := by
              intro _
              exact ⟨⟨rfl, rfl, rfl⟩, hall⟩
            shape := Or.inl ⟨hnd', hob'⟩ }

theorem sound_loop {g g' : SnakeGame} {t : Int} {rng rest : List Draw} {frame : Nat}
    (h : g.Sound) (hl : g.loop t rng frame = some (g', rest)) : g'.Sound := by
  rcases loop_some hl with (rfl | ⟨last, id, rfl⟩) | ⟨hrun, g2, hs, hg⟩
  · exact h
  · exact sound_congr h rfl rfl rfl (fun hw => hw)
  · have h1 : ({ g with lastFrameTime := t } : SnakeGame).Sound :=
      sound_congr h rfl rfl rfl (fun hw => hw)
    have h2 := sound_step h1 hrun hs
    rcases hg with rfl | rfl
    · exact h2
    · exact sound_congr h2 rfl rfl rfl (fun hw => hw)

theorem sound_of_reachableBy {allowed : KeyEvent → Prop} {g : SnakeGame}
    (h : ReachableBy allowed g) : g.Sound := by
  induction h with
  | start rng rest frame g hr => exact sound_restart hr
  | restart g rng rest frame g' _ hr _ => exact sound_restart hr
  | stop g _ ih => exact sound_stop ih
  | keydown g event rng rest frame g' _ _ hk ih => exact sound_keydown ih hk
  | loop g t rng rest frame g' _ hl ih => exact sound_loop ih hl

theorem step_settled {g g' : SnakeGame} {rng rest : List Draw}
    (h : g.isGameOver = true → g.isRunning = false) (hs : g.step rng = some (g', rest)) :
    g'.isGameOver = true → g'.isRunning = false := by
  cases hc : g.didCollide g.nextHead (g.isEating g.nextHead) with
  | true =>
    rw [step_of_collision rng hc] at hs
    simp only [Option.some.injEq, Prod.mk.injEq] at hs
    obtain ⟨rfl, _⟩ := hs
    intro _
    rfl
  | false =>
    cases he : g.isEating g.nextHead with
    | false =>
      rw [step_of_move rng hc he] at hs
      simp only [Option.some.injEq, Prod.mk.injEq] at hs
      obtain ⟨rfl, _⟩ := hs
      exact h
    | true =>
      rcases (step_eat_result hc he hs).2.2.2.2 with hw | hsame
      · intro _
        exact hw.2.1.2.2
      · obtain ⟨_, h1, _, h3⟩ := hsame
        rw [h1, h3]
        exact h

theorem settled_of_reachableBy {allowed : KeyEvent → Prop} {g : SnakeGame}
    (h : ReachableBy allowed g) : g.isGameOver = true → g.isRunning = false := by
  induction h with
  | start rng rest frame g hr =>
    obtain ⟨c, _, _, rfl⟩ := restart_some hr
    intro hc
    exact absurd hc (by simp)
  | restart g rng rest frame g' _ hr _ =>
    obtain ⟨c, _, _, rfl⟩ := restart_some hr
    intro hc
    exact absurd hc (by simp)
  | stop g _ _ =>
    obtain ⟨id, hid⟩ := stop_eq g
    rw [hid]
    intro _
    rfl
  | keydown g event rng rest frame g' _ _ hk ih =>
    rcases handleKeydown_some hk with hr | rfl | ⟨_, _, next, _, _, rfl⟩
    · obtain ⟨c, _, _, rfl⟩ := restart_some hr
      intro hc
      exact absurd hc (by simp)
    · exact ih
    · exact ih
  | loop g t rng rest frame g' _ hl ih =>
    rcases loop_some hl with (rfl | ⟨last, id, rfl⟩) | ⟨_, g2, hs, hg⟩
    · exact ih
    · exact ih
    · have h2 := step_settled (g := { g with lastFrameTime := t }) ih hs
      rcases hg with rfl | rfl
      · exact h2
      · exact h2

/-- In every reachable state a game that is over is lost or won: its loop has
stopped. -/
theorem terminal_of_reachableBy {allowed : KeyEvent → Prop} {g : SnakeGame}
    (h : ReachableBy allowed g) (hover : g.isGameOver = true) : g.Lost ∨ g.Won := by
  have hrun := settled_of_reachableBy h hover
  cases hw : g.didWin with
  | false => exact Or.inl ⟨hover, hw, hrun⟩
  | true => exact Or.inr ⟨hover, hw, hrun⟩

end SoundStates

section TidyStates

open SnakeGame

theorem cardinal_iff (h : Heading) :
    h.Cardinal ↔
      ∃ d ∈ [DIRECTIONS.UP, DIRECTIONS.DOWN, DIRECTIONS.LEFT, DIRECTIONS.RIGHT],
        h = Heading.vector d := by
  unfold Heading.Cardinal
  simp

theorem isOpposite_self_of_cardinal {h : Heading} (hc : h.Cardinal) :
    h.isOpposite h = false := by
  rcases hc with rfl | rfl | rfl | rfl <;> decide

theorem cardinal_of_key_bindings {key : String} {d : Direction}
    (h : KEY_BINDINGS key = some d) : (Heading.vector d).Cardinal := by
  unfold KEY_BINDINGS at h
  unfold Heading.Cardinal
  repeat' split at h
  all_goals first
    | (simp only [Option.some.injEq] at h; subst h; simp)
    | exact absurd h (by simp)

theorem lookupBinding_of_plain {key : String} {next : Heading}
    (hp : key ∉ OBJECT_PROTOTYPE_KEYS) (h : lookupBinding key = some next) : next.Cardinal := by
  unfold lookupBinding at h
  cases hk : KEY_BINDINGS key with
  | some d =>
    simp only [hk, Option.some.injEq] at h
    subst h
    exact cardinal_of_key_bindings hk
  | none =>
    simp only [hk, hp, if_false] at h
    exact Option.noConfusion h

theorem tidy_restart {g0 g : SnakeGame} {rng rest : List Draw} {frame : Nat}
    (h : g0.restart rng frame = some (g, rest)) : g.Tidy := by
  obtain ⟨c, _, _, rfl⟩ := restart_some h
  exact
    { direction := by unfold Heading.Cardinal; simp
      pending := by unfold Heading.Cardinal; simp
      notOpposite := by
        show (Heading.vector DIRECTIONS.RIGHT).isOpposite (Heading.vector DIRECTIONS.RIGHT)
          = false
        decide
      length := by simp
      onBoard := by
        show ∀ s ∈ ([Segment.cell ⟨8, 10⟩, Segment.cell ⟨7, 10⟩, Segment.cell ⟨6, 10⟩] :
            List Segment), s.onBoard
        decide
      nodup := by
        show ([Segment.cell ⟨8, 10⟩, Segment.cell ⟨7, 10⟩, Segment.cell ⟨6, 10⟩] :
            List Segment).Nodup
        decide
      chain := by
        show ([Segment.cell ⟨8, 10⟩, Segment.cell ⟨7, 10⟩, Segment.cell ⟨6, 10⟩] :
            List Segment).Chain' (fun a b => b.Adjacent a)
        simp only [List.chain'_cons, List.chain'_singleton, and_true]
        decide
      neck := by
        intro h n rest hs
        have hs' : ([Segment.cell ⟨8, 10⟩, Segment.cell ⟨7, 10⟩, Segment.cell ⟨6, 10⟩] :
            List Segment) = h :: n :: rest := hs
        simp only [List.cons.injEq] at hs'
        obtain ⟨rfl, rfl, _⟩ := hs'
        rfl }

theorem tidy_congr {g g' : SnakeGame} (h : g.Tidy) (hs : g'.snake = g.snake)
    (hd : g'.direction = g.direction) (hp : g'.pendingDirection = g.pendingDirection) :
    g'.Tidy where
  direction := by rw [hd]; exact h.direction
  pending := by rw [hp]; exact h.pending
  notOpposite := by rw [hd, hp]; exact h.notOpposite
  length := by rw [hs]; exact h.length
  onBoard := by rw [hs]; exact h.onBoard
  nodup := by rw [hs]; exact h.nodup
  chain := by rw [hs]; exact h.chain
  neck := by rw [hs, hd]; exact h.neck

theorem tidy_stop {g : SnakeGame} (h : g.Tidy) : g.stop.Tidy := by
  obtain ⟨id, hid⟩ := stop_eq g
  rw [hid]
  exact tidy_congr h rfl rfl rfl

theorem tidy_keydown {g g' : SnakeGame} {event : KeyEvent} {rng rest : List Draw}
    {frame : Nat} (h : g.Tidy) (hp : event.Plain)
    (hk : g.handleKeydown event rng frame = some (g', rest)) : g'.Tidy := by
  rcases handleKeydown_some hk with hr | rfl | ⟨_, _, next, hl, hopp, rfl⟩
  · exact tidy_restart hr
  · exact h
  · exact
      { direction := h.direction
        pending := lookupBinding_of_plain hp hl
        notOpposite := hopp
        length := h.length
        onBoard := h.onBoard
        nodup := h.nodup
        chain := h.chain
        neck := h.neck }

/-- In a tidy state the candidate head is the cell one cardinal move ahead of the
head. -/
theorem nextHead_of_tidy {g : SnakeGame} (h : g.Tidy) :
    ∃ (a : Cell) (n : Segment) (tl : List Segment) (p : Direction),
      g.snake = Segment.cell a :: n :: tl ∧ g.pendingDirection = Heading.vector p ∧
      p ∈ [DIRECTIONS.UP, DIRECTIONS.DOWN, DIRECTIONS.LEFT, DIRECTIONS.RIGHT] ∧
      g.nextHead = Segment.cell ⟨a.x + p.x, a.y + p.y⟩ := by
  obtain ⟨p, hp, hpe⟩ := (cardinal_iff _).1 h.pending
  have hlen := h.length
  cases hs : g.snake with
  | nil => rw [hs] at hlen; simp at hlen
  | cons first t =>
    cases t with
    | nil => rw [hs] at hlen; simp at hlen
    | cons n tl =>
      have hob := h.onBoard first (by rw [hs]; simp)
      cases first with
      | nan => exact absurd hob (by simp [Segment.onBoard])
      | cell a =>
        refine ⟨a, n, tl, p, rfl, hpe, hp, ?_⟩
        unfold nextHead
        rw [hs, hpe]
        rfl

theorem tidy_push {g g' : SnakeGame} (h : g.Tidy) (body : List Segment)
    (hd : g'.direction = g.pendingDirection)
    (hp : g'.pendingDirection = g.pendingDirection)
    (hs : g'.snake = g.nextHead :: body)
    (hbody : body = g.snake ∨ body = g.snake.dropLast)
    (hfree : ∀ c, g.nextHead = Segment.cell c → c.inGrid ∧ Segment.cell c ∉ body) :
    g'.Tidy := by
  obtain ⟨a, n, tl, p, hsn, hpe, hpm, hnh⟩ := nextHead_of_tidy h
  obtain ⟨hin, hnot⟩ := hfree _ hnh
  have hsub : List.Sublist body g.snake := by
    rcases hbody with rfl | rfl
    · exact List.Sublist.refl _
    · exact List.dropLast_sublist _
  have hchain : body.Chain' (fun a b => b.Adjacent a) := by
    rcases hbody with rfl | rfl
    · exact h.chain
    · exact h.chain.init
  have hhead : ∃ tl', body = Segment.cell a :: tl' ∧ 1 ≤ tl'.length := by
    rcases hbody with rfl | rfl
    · exact ⟨n :: tl, hsn, by simp⟩
    · refine ⟨(n :: tl).dropLast, by rw [hsn]; rfl, ?_⟩
      have := h.length
      rw [hsn] at this
      simp only [List.length_cons] at this
      simp only [List.length_dropLast, List.length_cons]
      omega
  obtain ⟨tl', hb, hl'⟩ := hhead
  have hadj : (Segment.cell a).Adjacent (Segment.cell ⟨a.x + p.x, a.y + p.y⟩) :=
    ⟨p, hpm, rfl⟩
  exact
    { direction := by rw [hd]; exact h.pending
      pending := by rw [hp]; exact h.pending
      notOpposite := by rw [hd, hp]; exact isOpposite_self_of_cardinal h.pending
      length := by
        rw [hs, hb]
        simp only [List.length_cons]
        omega
      onBoard := by
        rw [hs]
        intro s hsm
        rcases List.mem_cons.1 hsm with rfl | hsm
        · rw [hnh]; exact hin
        · exact h.onBoard s (hsub.subset hsm)
      nodup := by
        rw [hs, hnh]
        exact List.nodup_cons.2 ⟨hnot, h.nodup.sublist hsub⟩
      chain := by
        rw [hs, hnh]
        refine hchain.cons' ?_
        intro y hy
        rw [hb] at hy
        simp only [List.head?_cons, Option.mem_def, Option.some.injEq] at hy
        subst hy
        exact hadj
      neck := by
        intro x y r hxy
        rw [hs, hb] at hxy
        simp only [List.cons.injEq] at hxy
        obtain ⟨rfl, rfl, _⟩ := hxy
        rw [hd, hnh, hpe]
        rfl }

theorem tidy_step {g g' : SnakeGame} {rng rest : List Draw} (h : g.Tidy)
    (hs : g.step rng = some (g', rest)) : g'.Tidy := by
  have hne : g.snake ≠ [] := by
    intro hn
    have := h.length
    rw [hn] at this
    simp at this
  cases hc : g.didCollide g.nextHead (g.isEating g.nextHead) with
  | true =>
    rw [step_of_collision rng hc] at hs
    simp only [Option.some.injEq, Prod.mk.injEq] at hs
    obtain ⟨rfl, _⟩ := hs
    exact tidy_congr h rfl rfl rfl
  | false =>
    cases he : g.isEating g.nextHead with
    | false =>
      rw [step_of_move rng hc he, dropLast_cons_of_ne_nil _ hne] at hs
      simp only [Option.some.injEq, Prod.mk.injEq] at hs
      obtain ⟨rfl, _⟩ := hs
      refine tidy_push h g.snake.dropLast rfl rfl rfl (Or.inr rfl) ?_
      intro c hh
      rw [he, hh] at hc
      have hcol := didCollide_cell_iff g c false
      rw [hc] at hcol
      simpa using hcol
    | true =>
      obtain ⟨h1, _, h3, h4, _⟩ := step_eat_result hc he hs
      refine tidy_push h g.snake h3 h4 h1 (Or.inl rfl) ?_
      intro c hh
      rw [he, hh] at hc
      have hcol := didCollide_cell_iff g c true
      rw [hc] at hcol
      simpa using hcol

theorem tidy_loop {g g' : SnakeGame} {t : Int} {rng rest : List Draw} {frame : Nat}
    (h : g.Tidy) (hl : g.loop t rng frame = some (g', rest)) : g'.Tidy := by
  rcases loop_some hl with (rfl | ⟨last, id, rfl⟩) | ⟨_, g2, hs, hg⟩
  · exact h
  · exact tidy_congr h rfl rfl rfl
  · have h1 : ({ g with lastFrameTime := t } : SnakeGame).Tidy := tidy_congr h rfl rfl rfl
    have h2 := tidy_step h1 hs
    rcases hg with rfl | rfl
    · exact h2
    · exact tidy_congr h2 rfl rfl rfl

/-- Every state reachable by the keyboard is tidy. -/
theorem tidy_of_reachableByKeyboard {g : SnakeGame} (h : g.ReachableByKeyboard) :
    g.Tidy := by
  unfold ReachableByKeyboard at h
  induction h with
  | start rng rest frame g hr => exact tidy_restart hr
  | restart g rng rest frame g' _ hr _ => exact tidy_restart hr
  | stop g _ ih => exact tidy_stop ih
  | keydown g event rng rest frame g' _ hp hk ih => exact tidy_keydown ih hp hk
  | loop g t rng rest frame g' _ hl ih => exact tidy_loop ih hl

end TidyStates

section Traces

open SnakeGame

theorem reachableBy_fresh (allowed : KeyEvent → Prop) : ReachableBy allowed fresh :=
  ReachableBy.start Draw.sample [] 1 fresh (by decide)

theorem reachable_misled : misled.Reachable :=
  ReachableBy.keydown fresh ⟨"KeyC", "constructor"⟩ [] [] 1 misled
    (reachableBy_fresh _) trivial (by decide)

theorem reachable_ghost : ghost.Reachable :=
  ReachableBy.loop { misled with lastFrameTime := 1000, animationFrameId := some 2 }
    1110 [] [] 3 ghost
    (ReachableBy.loop misled 1000 [] [] 2
      { misled with lastFrameTime := 1000, animationFrameId := some 2 }
      reachable_misled (by decide))
    (by decide)

theorem neckBehindHead_of_tidy {g : SnakeGame} (h : g.Tidy) : g.NeckBehindHead := by
  obtain ⟨a, n, tl, p, hsn, _, _, _⟩ := nextHead_of_tidy h
  obtain ⟨d, _, hde⟩ := (cardinal_iff _).1 h.direction
  have hneck := h.neck _ _ _ hsn
  rw [hde] at hneck
  cases n with
  | nan => exact Segment.noConfusion hneck
  | cell b =>
    simp only [Segment.moved, Segment.cell.injEq] at hneck
    refine ⟨a, d, tl, hde, ?_⟩
    rw [hsn, hneck]
    simp

theorem nextHead_ne_neck_of_tidy {g : SnakeGame} (h : g.Tidy) :
    ∀ x n rest, g.snake = x :: n :: rest → g.nextHead ≠ n := by
  intro x n rest hs hh
  obtain ⟨a, n', tl, p, hsn, hpe, _, hnh⟩ := nextHead_of_tidy h
  obtain ⟨a', d, rest', hde, hs'⟩ := neckBehindHead_of_tidy h
  rw [hs] at hsn hs'
  simp only [List.cons.injEq] at hsn hs'
  obtain ⟨rfl, rfl, rfl⟩ := hsn
  obtain ⟨ha, hn, _⟩ := hs'
  have ha' : a = a' := Segment.cell.inj ha
  subst ha'
  rw [hnh, hn] at hh
  simp only [Segment.cell.injEq, Cell.mk.injEq] at hh
  have hopp := h.notOpposite
  rw [hde, hpe] at hopp
  have : (Heading.vector d).isOpposite (Heading.vector p) = true := by
    simp only [Heading.isOpposite, Bool.and_eq_true, beq_iff_eq]
    omega
  rw [hopp] at this
  exact Bool.noConfusion this

end Traces

section Keys

open SnakeGame

theorem toLower_eq_iff_of_letter (c l u : Char)
    (hl : (l = 'w' ∧ u = 'W') ∨ (l = 'a' ∧ u = 'A') ∨ (l = 's' ∧ u = 'S') ∨
      (l = 'd' ∧ u = 'D')) :
    c.toLower = l ↔ c = l ∨ c = u := by
  constructor
  · intro h
    unfold Char.toLower at h
    simp only at h
    by_cases hr : c.toNat ≥ 65 ∧ c.toNat ≤ 90
    · rw [if_pos hr] at h
      right
      have hc : c = Char.ofNat c.toNat := (Char.ofNat_toNat c).symm
      generalize c.toNat = n at *
      obtain ⟨h65, h90⟩ := hr
      subst hc
      rcases hl with ⟨rfl, rfl⟩ | ⟨rfl, rfl⟩ | ⟨rfl, rfl⟩ | ⟨rfl, rfl⟩ <;>
        interval_cases n <;> first | rfl | (exact absurd h (by decide))
    · rw [if_neg hr] at h
      left; exact h
  · rintro (rfl | rfl)
    · rcases hl with ⟨rfl, _⟩ | ⟨rfl, _⟩ | ⟨rfl, _⟩ | ⟨rfl, _⟩ <;> decide
    · rcases hl with ⟨rfl, rfl⟩ | ⟨rfl, rfl⟩ | ⟨rfl, rfl⟩ | ⟨rfl, rfl⟩ <;> decide

/-- The lookup of every key, as `handleKeydown` does it: the twelve keys of the
bindings give their direction, the names of the members of `Object.prototype`
give such a member, and every other key gives `undefined`. -/
theorem lookupBinding_normalizedKey (key : String) :
    lookupBinding (normalizedKey key) =
      if key ∈ ["ArrowUp", "w", "W"] then some (Heading.vector DIRECTIONS.UP)
      else if key ∈ ["ArrowDown", "s", "S"] then some (Heading.vector DIRECTIONS.DOWN)
      else if key ∈ ["ArrowLeft", "a", "A"] then some (Heading.vector DIRECTIONS.LEFT)
      else if key ∈ ["ArrowRight", "d", "D"] then some (Heading.vector DIRECTIONS.RIGHT)
      else if key ∈ OBJECT_PROTOTYPE_KEYS then some Heading.member
      else none := by
  obtain ⟨data⟩ := key
  match data with
  | [] => decide
  | [c] =>
    have hn : normalizedKey ⟨[c]⟩ = ⟨[c.toLower]⟩ := rfl
    have hw := toLower_eq_iff_of_letter c 'w' 'W' (Or.inl ⟨rfl, rfl⟩)
    have ha := toLower_eq_iff_of_letter c 'a' 'A' (Or.inr (Or.inl ⟨rfl, rfl⟩))
    have hs := toLower_eq_iff_of_letter c 's' 'S' (Or.inr (Or.inr (Or.inl ⟨rfl, rfl⟩)))
    have hd := toLower_eq_iff_of_letter c 'd' 'D' (Or.inr (Or.inr (Or.inr ⟨rfl, rfl⟩)))
    rw [hn]
    simp only [lookupBinding, KEY_BINDINGS, OBJECT_PROTOTYPE_KEYS, String.ext_iff,
      List.mem_cons, List.mem_singleton, List.not_mem_nil, or_false]
    simp [hw, ha, hs, hd]
    split_ifs <;> simp_all
  | c1 :: c2 :: t =>
    have hn : normalizedKey ⟨c1 :: c2 :: t⟩ = ⟨c1 :: c2 :: t⟩ := rfl
    rw [hn]
    simp only [lookupBinding, KEY_BINDINGS, OBJECT_PROTOTYPE_KEYS, String.ext_iff,
      List.mem_cons, List.mem_singleton, List.not_mem_nil, or_false]
    simp
    split_ifs <;> simp_all

end Keys

/-! ## Movement and growth -/

namespace SnakeGame

/-- C1. A `step()` that detects no collision keeps the length of the snake when the
candidate head is not the food cell, and makes it one longer when the candidate
head is the food cell (and for suitable draws the eating step does return). -/
theorem step_length (g : SnakeGame)
    (hc : g.didCollide g.nextHead (g.isEating g.nextHead) = false) :
    (¬ g.HeadOnFood →
      ∀ rng, ∃ g', g.step rng = some (g', rng) ∧ g'.snake.length = g.snake.length) ∧
    (g.HeadOnFood →
      (∀ rng g' rest, g.step rng = some (g', rest) →
        g'.snake.length = g.snake.length + 1) ∧
      (∃ rng g' rest, g.step rng = some (g', rest))) := by
  constructor
  · intro hf rng
    have he : g.isEating g.nextHead = false := by
      cases h : g.isEating g.nextHead with
      | false => rfl
      | true => exact absurd ((isEating_nextHead_iff g).1 h) hf
    refine ⟨_, step_of_move rng hc he, ?_⟩
    simp
  · intro hf
    have he : g.isEating g.nextHead = true := (isEating_nextHead_iff g).2 hf
    refine ⟨?_, step_eat_returns hc he⟩
    intro rng g' rest hs
    rw [(step_eat_result hc he hs).1]
    simp

/-- C1, at the opening position with the food on the cell ahead of the head: the
step eats and the snake has four segments afterwards. -/
theorem step_length_witness :
    (aboutToEat.snake ≠ [] ∧
      aboutToEat.didCollide aboutToEat.nextHead
        (aboutToEat.isEating aboutToEat.nextHead) = false ∧
      aboutToEat.HeadOnFood) ∧
    (∀ rng g' rest, aboutToEat.step rng = some (g', rest) → g'.snake.length = 3 + 1) :=
  ⟨⟨by decide, by decide, by decide⟩, ((step_length aboutToEat (by decide)).2 (by decide)).1⟩

/-- C2. A `step()` on a non-empty snake that neither collides nor eats leaves the
candidate head followed by the old snake without its last segment, where the
candidate is the old head moved by `pendingDirection`: the cell
`(a.x + d.x, a.y + d.y)` for the head `a` and the vector `d`, and the object with
`NaN` coordinates when the head has them or the heading is no vector.  The
snake has as many segments as before, and when the candidate is a cell pairwise
distinct segments stay pairwise distinct. -/
theorem step_shift (g : SnakeGame) (rng : List Draw) (hne : g.snake ≠ [])
    (hc : g.didCollide g.nextHead (g.isEating g.nextHead) = false)
    (hf : ¬ g.HeadOnFood) :
    ∃ g', g.step rng = some (g', rng) ∧ g'.snake = g.nextHead :: g.snake.dropLast ∧
      (∀ (a : Cell) (d : Direction) (rest : List Segment),
        g.snake = Segment.cell a :: rest → g.pendingDirection = Heading.vector d →
        g'.snake = Segment.cell ⟨a.x + d.x, a.y + d.y⟩ :: g.snake.dropLast) ∧
      (g.snake.head? = some Segment.nan ∨ g.pendingDirection = Heading.member →
        g'.snake = Segment.nan :: g.snake.dropLast) ∧
      g'.snake.length = g.snake.length ∧
      (g.snake.Nodup → g.nextHead ≠ Segment.nan → g'.snake.Nodup) := by
  have he : g.isEating g.nextHead = false := by
    cases h : g.isEating g.nextHead with
    | false => rfl
    | true => exact absurd ((isEating_nextHead_iff g).1 h) hf
  have hs := step_of_move rng hc he
  rw [dropLast_cons_of_ne_nil _ hne] at hs
  refine ⟨_, hs, rfl, ?_, ?_, ?_, ?_⟩
  · intro a d rest hsn hpd
    have hh : g.nextHead = Segment.cell ⟨a.x + d.x, a.y + d.y⟩ := by
      unfold nextHead
      rw [hsn, hpd]
      rfl
    show g.nextHead :: g.snake.dropLast = _
    rw [hh]
  · intro hcase
    have hh : g.nextHead = Segment.nan := by
      rcases hcase with hn | hm
      · exact nextHead_of_head_nan hn
      · unfold nextHead
        cases hsn : g.snake with
        | nil => rfl
        | cons first t =>
          rw [hm]
          cases first <;> rfl
    show g.nextHead :: g.snake.dropLast = _
    rw [hh]
  · simp only [List.length_cons, List.length_dropLast]
    have : 0 < g.snake.length := List.length_pos.2 hne
    omega
  · intro hd hcell
    have hmem : g.nextHead ∉ g.snake.dropLast := by
      intro hm
      rw [he] at hc
      cases hh : g.nextHead with
      | nan => exact hcell hh
      | cell c =>
        rw [hh] at hc hm
        have := (didCollide_cell_iff g c false).2 (Or.inr (by simpa using hm))
        rw [hc] at this
        exact Bool.noConfusion this
    exact List.nodup_cons.2 ⟨hmem, hd.sublist (List.dropLast_sublist _)⟩

/-- C2, for the opening position with UP pending: the head (8, 10) moves by
(0, -1) to (8, 9) and the tail (6, 10) is dropped. -/
theorem step_shift_witness :
    (turningUp.snake ≠ [] ∧
      turningUp.didCollide turningUp.nextHead (turningUp.isEating turningUp.nextHead)
        = false ∧
      ¬ turningUp.HeadOnFood ∧
      turningUp.snake =
        [Segment.cell ⟨8, 10⟩, Segment.cell ⟨7, 10⟩, Segment.cell ⟨6, 10⟩] ∧
      turningUp.pendingDirection = Heading.vector DIRECTIONS.UP ∧
      DIRECTIONS.UP = ⟨0, -1⟩) ∧
    ∃ g', turningUp.step [] = some (g', []) ∧
      g'.snake = [Segment.cell ⟨8, 9⟩, Segment.cell ⟨8, 10⟩, Segment.cell ⟨7, 10⟩] ∧
      g'.snake.length = 3 :=
  ⟨⟨by decide, by decide, by decide, by decide, by decide, by decide⟩,
    match step_shift turningUp [] (by decide) (by decide) (by decide) with
    | ⟨g', hs, _, hmove, _, hlen, _⟩ =>
      ⟨g', hs,
        (hmove ⟨8, 10⟩ DIRECTIONS.UP
          [Segment.cell ⟨7, 10⟩, Segment.cell ⟨6, 10⟩] (by decide) (by decide)).trans
          (by decide),
        hlen.trans (by decide)⟩⟩

/-! ## Collision and loss -/

/-- C3. `step()` makes the game lost exactly on a collision: when the candidate
head is off the board or on the body (the last segment counting only when
eating) the step returns with the flags of `finish(false)` and with snake,
direction, pendingDirection, score and food as they were; on every other step
the three flags stay as they were or are those of `finish(true)`, so from a
state that is not lost the result is lost if and only if the head collided. -/
theorem step_lost_iff (g : SnakeGame) (rng : List Draw) :
    (g.HitsWallOrBody →
      ∃ g', g.step rng = some (g', rng) ∧ g'.Lost ∧ g'.snake = g.snake ∧
        g'.direction = g.direction ∧ g'.pendingDirection = g.pendingDirection ∧
        g'.score = g.score ∧ g'.food = g.food) ∧
    (∀ g' rest, g.step rng = some (g', rest) → ¬ g.HitsWallOrBody →
      g.SameOutcome g' ∨ g'.Won) ∧
    (∀ g' rest, g.step rng = some (g', rest) → ¬ g.Lost →
      (g'.Lost ↔ g.HitsWallOrBody)) := by
  have hcol : g.HitsWallOrBody → g.step rng = some (g.finish false, rng) := fun hw =>
    step_of_collision rng ((didCollide_iff_hitsWallOrBody g).2 hw)
  have hfree : ∀ g' rest, g.step rng = some (g', rest) → ¬ g.HitsWallOrBody →
      g.SameOutcome g' ∨ g'.Won := by
    intro g' rest hs hno
    have hc : g.didCollide g.nextHead (g.isEating g.nextHead) = false := by
      cases h : g.didCollide g.nextHead (g.isEating g.nextHead) with
      | false => rfl
      | true => exact absurd ((didCollide_iff_hitsWallOrBody g).1 h) hno
    cases he : g.isEating g.nextHead with
    | false =>
      rw [step_of_move rng hc he] at hs
      simp only [Option.some.injEq, Prod.mk.injEq] at hs
      obtain ⟨rfl, _⟩ := hs
      exact Or.inl ⟨rfl, rfl, rfl⟩
    | true =>
      rcases (step_eat_result hc he hs).2.2.2.2 with h | h
      · exact Or.inr h.2.1
      · exact Or.inl h.2
  refine ⟨?_, hfree, ?_⟩
  · intro hw
    exact ⟨_, hcol hw, ⟨rfl, rfl, rfl⟩, rfl, rfl, rfl, rfl, rfl⟩
  · intro g' rest hs hnl
    constructor
    · intro hl
      by_contra hno
      rcases hfree g' rest hs hno with h | h
      · exact hnl ⟨h.1 ▸ hl.1, h.2.1 ▸ hl.2.1, h.2.2 ▸ hl.2.2⟩
      · have h1 := hl.2.1
        have h2 := h.2.1
        rw [h1] at h2
        exact Bool.noConfusion h2
    · intro hw
      rw [hcol hw] at hs
      simp only [Option.some.injEq, Prod.mk.injEq] at hs
      obtain ⟨rfl, _⟩ := hs
      exact ⟨rfl, rfl, rfl⟩

/-- C3, with the head at `x = GRID_SIZE - 1` moving RIGHT: the candidate is off the
board and the step ends the game as lost, the rest of the state untouched. -/
theorem step_lost_iff_witness :
    (atWall.nextHead = Segment.cell ⟨20, 10⟩ ∧ atWall.HitsWallOrBody) ∧
    ∃ g', atWall.step [] = some (g', []) ∧ g'.Lost ∧ g'.snake = atWall.snake ∧
      g'.direction = atWall.direction ∧ g'.pendingDirection = atWall.pendingDirection ∧
      g'.score = atWall.score ∧ g'.food = atWall.food :=
  ⟨⟨by decide, by decide⟩, (step_lost_iff atWall []).1 (by decide)⟩

/-- C4. A candidate head on the board that is the last segment of the snake and no
other segment does not collide when the snake does not grow; a `step()` to such
a cell with no food on it returns and leaves the three outcome flags as they were. -/
theorem tail_cell_is_legal (g : SnakeGame) (position : Cell) (hin : position.inGrid)
    (hlast : g.snake.getLast? = some (Segment.cell position))
    (hno : Segment.cell position ∉ g.snake.dropLast) :
    g.didCollide (Segment.cell position) false = false ∧
    (g.nextHead = Segment.cell position → g.food ≠ some position →
      ∀ rng, ∃ g', g.step rng = some (g', rng) ∧ g.SameOutcome g' ∧
        g'.snake = Segment.cell position :: g.snake.dropLast) := by
  have hd : g.didCollide (Segment.cell position) false = false := by
    cases h : g.didCollide (Segment.cell position) false with
    | false => rfl
    | true =>
      rcases (didCollide_cell_iff g position false).1 h with h1 | h1
      · exact absurd hin h1
      · simp only [Bool.false_eq_true, if_false] at h1
        exact absurd h1 hno
  have hne : g.snake ≠ [] := by
    intro h
    rw [h] at hlast
    simp at hlast
  refine ⟨hd, ?_⟩
  intro hh hf rng
  have he : g.isEating g.nextHead = false := by
    cases h : g.isEating g.nextHead with
    | false => rfl
    | true =>
      rw [hh] at h
      exact absurd ((isEating_cell_iff g position).1 h) hf
  have hc : g.didCollide g.nextHead (g.isEating g.nextHead) = false := by
    rw [he, hh]; exact hd
  have hs := step_of_move rng hc he
  rw [dropLast_cons_of_ne_nil _ hne, hh] at hs
  exact ⟨_, hs, ⟨rfl, rfl, rfl⟩, rfl⟩

/-- C4, for a snake curled in a square whose head moves onto the cell of its tail. -/
theorem tail_cell_is_legal_witness :
    (Cell.inGrid ⟨6, 5⟩ ∧ curled.snake.getLast? = some (Segment.cell ⟨6, 5⟩) ∧
      Segment.cell ⟨6, 5⟩ ∉ curled.snake.dropLast ∧
      curled.nextHead = Segment.cell ⟨6, 5⟩ ∧ curled.food ≠ some ⟨6, 5⟩) ∧
    curled.didCollide (Segment.cell ⟨6, 5⟩) false = false ∧
    ∃ g', curled.step [] = some (g', []) ∧ curled.SameOutcome g' ∧
      g'.snake = Segment.cell ⟨6, 5⟩ :: curled.snake.dropLast :=
  ⟨⟨by decide, by decide, by decide, by decide, by decide⟩,
    (tail_cell_is_legal curled ⟨6, 5⟩ (by decide) (by decide) (by decide)).1,
    (tail_cell_is_legal curled ⟨6, 5⟩ (by decide) (by decide) (by decide)).2
      (by decide) (by decide) []⟩

/-- C5. When the food lies on a segment of the snake, the last one included, and
the candidate head is that cell, `step()` flags a collision and ends the game as
lost: the score is not counted up and the snake does not grow. -/
theorem collision_before_eating (g : SnakeGame) (c : Cell) (rng : List Draw)
    (hh : g.nextHead = Segment.cell c) (hfood : g.food = some c)
    (hocc : Segment.cell c ∈ g.snake) :
    g.didCollide g.nextHead (g.isEating g.nextHead) = true ∧
    ∃ g', g.step rng = some (g', rng) ∧ g'.Lost ∧ g'.score = g.score ∧
      g'.snake = g.snake ∧ g'.food = g.food := by
  have hc : g.didCollide g.nextHead (g.isEating g.nextHead) = true := by
    rw [didCollide_iff_hitsWallOrBody]
    unfold HitsWallOrBody
    rw [hh]
    right
    simpa [hfood] using hocc
  exact ⟨hc, _, step_of_collision rng hc, ⟨rfl, rfl, rfl⟩, rfl, rfl, rfl⟩

/-- C5, for the curled snake with the food on the cell of its tail: the step that
would eat there is a collision. -/
theorem collision_before_eating_witness :
    (curledOnFood.nextHead = Segment.cell ⟨6, 5⟩ ∧ curledOnFood.food = some ⟨6, 5⟩ ∧
      Segment.cell ⟨6, 5⟩ ∈ curledOnFood.snake) ∧
    curledOnFood.didCollide curledOnFood.nextHead
      (curledOnFood.isEating curledOnFood.nextHead) = true ∧
    ∃ g', curledOnFood.step [] = some (g', []) ∧
      g'.Lost ∧ g'.score = curledOnFood.score ∧ g'.snake = curledOnFood.snake ∧
      g'.food = curledOnFood.food :=
  ⟨⟨by decide, by decide, by decide⟩,
    collision_before_eating curledOnFood ⟨6, 5⟩ [] (by decide) (by decide) (by decide)⟩

end SnakeGame

namespace SnakeGame

/-! ## Food placement -/

/-- C6. Whatever the snake and the draws, a cell that `spawnFood()` returns has
both coordinates at least 0 and below `GRID_SIZE` and is no segment of the snake. -/
theorem spawnFood_free (g : SnakeGame) (rng rest : List Draw) (c : Cell)
    (h : g.spawnFood rng = some (some c, rest)) :
    (0 ≤ c.x ∧ c.x < (GRID_SIZE : Int) ∧ 0 ≤ c.y ∧ c.y < (GRID_SIZE : Int)) ∧
      ∀ segment ∈ g.snake, segment ≠ Segment.cell c := by
  unfold spawnFood at h
  split at h
  · simp at h
  · cases hl : spawnLoop g.snake rng with
    | none => simp [hl] at h
    | some p =>
      simp only [hl, Option.some.injEq, Prod.mk.injEq] at h
      obtain ⟨hc, hr⟩ := h
      have := spawnLoop_some g.snake rng p.1 p.2 hl
      rw [hc] at this
      refine ⟨this.1, ?_⟩
      intro segment hs heq
      exact this.2 (heq ▸ hs)

/-- C6, at the opening position: the first pair of draws gives the cell of the
head and is rejected, the second gives the free cell (3, 4). -/
theorem spawnFood_free_witness :
    opening.spawnFood Draw.sample = some (some ⟨3, 4⟩, []) ∧
    ((0 ≤ (3 : Int) ∧ (3 : Int) < (GRID_SIZE : Int) ∧ 0 ≤ (4 : Int) ∧ (4 : Int) < (GRID_SIZE : Int)) ∧
      ∀ segment ∈ opening.snake, segment ≠ Segment.cell ⟨3, 4⟩) :=
  ⟨by decide, spawnFood_free opening Draw.sample [] ⟨3, 4⟩ (by decide)⟩

/-- C7. `spawnFood()` returns `null` exactly when the snake has `GRID_SIZE * GRID_SIZE`
segments or more.  For pairwise distinct segments on the board that is exactly
when every cell of the board is a segment, and a shorter snake always leaves a
free cell of the board, which the loop returns when it is drawn. -/
theorem spawnFood_null_iff (g : SnakeGame) :
    (∀ rng, (∃ rest, g.spawnFood rng = some (none, rest)) ↔
      GRID_SIZE * GRID_SIZE ≤ g.snake.length) ∧
    (∀ rng, GRID_SIZE * GRID_SIZE ≤ g.snake.length → g.spawnFood rng = some (none, rng)) ∧
    (g.snake.Nodup → (∀ s ∈ g.snake, s.onBoard) →
      ((∀ c : Cell, c.inGrid → Segment.cell c ∈ g.snake) ↔
        GRID_SIZE * GRID_SIZE ≤ g.snake.length)) ∧
    (g.snake.length < GRID_SIZE * GRID_SIZE →
      ∃ c : Cell, c.inGrid ∧ Segment.cell c ∉ g.snake ∧
        ∃ rx ry : Draw, ∀ rest, g.spawnFood (rx :: ry :: rest) = some (some c, rest)) := by
  have hfull : ∀ rng, GRID_SIZE * GRID_SIZE ≤ g.snake.length →
      g.spawnFood rng = some (none, rng) := by
    intro rng h
    simp [spawnFood, h]
  refine ⟨?_, hfull, ?_, ?_⟩
  · intro rng
    constructor
    · rintro ⟨rest, h⟩
      by_contra hlt
      unfold spawnFood at h
      simp only [ge_iff_le, hlt, if_false] at h
      cases hl : spawnLoop g.snake rng with
      | none => simp [hl] at h
      | some p => simp [hl] at h
    · intro h
      exact ⟨rng, hfull rng h⟩
  · intro hd hg
    constructor
    · intro hall
      by_contra hlt
      obtain ⟨c, hc, hn⟩ := exists_free_cell g.snake (by omega)
      exact hn (hall c hc)
    · intro h
      exact full_of_nodup g.snake hd hg h
  · intro hlt
    obtain ⟨c, hc, hn⟩ := exists_free_cell g.snake hlt
    obtain ⟨rx, ry, hxy⟩ := exists_draws_of_inGrid c hc
    refine ⟨c, hc, hn, rx, ry, ?_⟩
    intro rest
    have hl := spawnLoop_of_free g.snake rx ry rest (by rw [hxy]; exact hn) [] (by simp)
    simp only [Draw.pairs, List.foldr_nil] at hl
    have hge : ¬ GRID_SIZE * GRID_SIZE ≤ g.snake.length := by omega
    simp [spawnFood, hge, hl, hxy]

/-- C7, at the opening position: three segments, so the result is never `null`
and a free cell of the board exists. -/
theorem spawnFood_null_iff_witness :
    opening.snake.length < GRID_SIZE * GRID_SIZE ∧
    (¬ ∃ rest, opening.spawnFood [] = some (none, rest)) ∧
    ∃ c : Cell, c.inGrid ∧ Segment.cell c ∉ opening.snake ∧
      ∃ rx ry : Draw, ∀ rest, opening.spawnFood (rx :: ry :: rest) = some (some c, rest) :=
  ⟨by decide,
    fun h => absurd (((spawnFood_null_iff opening).1 []).1 h) (by decide),
    (spawnFood_null_iff opening).2.2.2 (by decide)⟩

/-! ## Winning, restarting and steering -/

/-- C8. An eating `step()` that does not collide and brings the snake to
`GRID_SIZE * GRID_SIZE` segments returns with the outcome won, not lost, and with
no food; an eating step that leaves the snake shorter leaves the three outcome
flags as they were. -/
theorem step_win (g : SnakeGame) (rng : List Draw)
    (hc : g.didCollide g.nextHead (g.isEating g.nextHead) = false)
    (hf : g.HeadOnFood) :
    (g.snake.length + 1 = GRID_SIZE * GRID_SIZE →
      ∃ g', g.step rng = some (g', rng) ∧ g'.Won ∧ ¬ g'.Lost ∧ g'.food = none ∧
        g'.snake = g.nextHead :: g.snake) ∧
    (g.snake.length + 1 < GRID_SIZE * GRID_SIZE →
      ∀ g' rest, g.step rng = some (g', rest) → g.SameOutcome g') := by
  have he : g.isEating g.nextHead = true := (isEating_nextHead_iff g).2 hf
  constructor
  · intro hlen
    refine ⟨_, step_of_eat_full rng hc he hlen, ⟨rfl, rfl, rfl⟩, ?_, rfl, rfl⟩
    intro hl
    exact Bool.noConfusion hl.2.1
  · intro hlen g' rest hs
    rcases (step_eat_result hc he hs).2.2.2.2 with h | h
    · omega
    · exact h.2

set_option maxRecDepth 100000 in
/-- C8, for a snake on 399 cells of the board that eats the food on the last one. -/
theorem step_win_witness :
    (almostFull.nextHead = Segment.cell ⟨0, 19⟩ ∧
      almostFull.didCollide almostFull.nextHead
        (almostFull.isEating almostFull.nextHead) = false ∧
      almostFull.HeadOnFood ∧
      almostFull.snake.length + 1 = GRID_SIZE * GRID_SIZE) ∧
    ∃ g', almostFull.step [] = some (g', []) ∧ g'.Won ∧ ¬ g'.Lost ∧ g'.food = none ∧
      g'.snake = almostFull.nextHead :: almostFull.snake :=
  ⟨⟨by decide, by decide, by decide, by decide⟩,
    (step_win almostFull [] (by decide) (by decide)).1 (by decide)⟩

/-- C9. From every state and for every draws, a `restart()` that returns leaves
score 0, the snake (8,10), (7,10), (6,10), both headings RIGHT, the outcome
running, and a food cell of the board that is none of the three segments; and it
returns as soon as a pair of draws gives a cell that is not one of the three. -/
theorem restart_spec (g : SnakeGame) (rng : List Draw) (frame : Nat) :
    (∀ g' rest, g.restart rng frame = some (g', rest) →
      g'.score = 0 ∧
      g'.snake = [Segment.cell ⟨8, 10⟩, Segment.cell ⟨7, 10⟩, Segment.cell ⟨6, 10⟩] ∧
      g'.direction = Heading.vector DIRECTIONS.RIGHT ∧
      g'.pendingDirection = Heading.vector DIRECTIONS.RIGHT ∧
      g'.Running ∧
      ∃ c : Cell, g'.food = some c ∧ c.inGrid ∧
        c ≠ ⟨8, 10⟩ ∧ c ≠ ⟨7, 10⟩ ∧ c ≠ ⟨6, 10⟩) ∧
    (∀ (rejected : List (Draw × Draw)) (rx ry : Draw),
      (∀ q ∈ rejected, (⟨q.1.scaled, q.2.scaled⟩ : Cell) ∈
        ([⟨8, 10⟩, ⟨7, 10⟩, ⟨6, 10⟩] : List Cell)) →
      (⟨rx.scaled, ry.scaled⟩ : Cell) ∉ ([⟨8, 10⟩, ⟨7, 10⟩, ⟨6, 10⟩] : List Cell) →
      ∃ g', g.restart (Draw.pairs rejected (rx :: ry :: rng)) frame = some (g', rng) ∧
        g'.food = some ⟨rx.scaled, ry.scaled⟩) := by
  constructor
  · intro g' rest h
    unfold restart at h
    simp only [spawnFood, List.length_cons, List.length_nil, GRID_SIZE] at h
    simp only [ge_iff_le, Nat.reduceMul, Nat.reduceAdd, Nat.reduceLeDiff, if_false] at h
    cases hl : spawnLoop
        [Segment.cell ⟨8, 10⟩, Segment.cell ⟨7, 10⟩, Segment.cell ⟨6, 10⟩] rng with
    | none => simp [hl] at h
    | some p =>
      simp only [hl, Option.some.injEq, Prod.mk.injEq] at h
      obtain ⟨rfl, _⟩ := h
      have hp := spawnLoop_some _ rng p.1 p.2 hl
      refine ⟨rfl, rfl, rfl, rfl, ⟨rfl, rfl, rfl⟩, p.1, rfl, hp.1, ?_, ?_, ?_⟩
      · intro hc; apply hp.2; rw [hc]; simp
      · intro hc; apply hp.2; rw [hc]; simp
      · intro hc; apply hp.2; rw [hc]; simp
  · intro rejected rx ry hrej hfree
    have hl := spawnLoop_of_free
      [Segment.cell ⟨8, 10⟩, Segment.cell ⟨7, 10⟩, Segment.cell ⟨6, 10⟩] rx ry rng
      (by simpa using hfree) rejected
      (by intro q hq; have := hrej q hq; simpa using this)
    unfold restart
    simp only [spawnFood, List.length_cons, List.length_nil, GRID_SIZE]
    simp only [ge_iff_le, Nat.reduceMul, Nat.reduceAdd, Nat.reduceLeDiff, if_false]
    rw [hl]
    exact ⟨_, rfl, rfl⟩

/-- C9, restarting a lost game whose snake stood at the wall: the first pair of
draws gives the cell of the new head and is rejected, the second gives (3, 4). -/
theorem restart_spec_witness :
    ((atWall.finish false).Lost ∧
      ((atWall.finish false).restart Draw.sample 2).isSome = true) ∧
    ∀ g' rest, (atWall.finish false).restart Draw.sample 2 = some (g', rest) →
      g'.score = 0 ∧
      g'.snake = [Segment.cell ⟨8, 10⟩, Segment.cell ⟨7, 10⟩, Segment.cell ⟨6, 10⟩] ∧
      g'.direction = Heading.vector DIRECTIONS.RIGHT ∧
      g'.pendingDirection = Heading.vector DIRECTIONS.RIGHT ∧
      g'.Running ∧
      ∃ c : Cell, g'.food = some c ∧ c.inGrid ∧
        c ≠ ⟨8, 10⟩ ∧ c ≠ ⟨7, 10⟩ ∧ c ≠ ⟨6, 10⟩ :=
  ⟨⟨by decide, by decide⟩, (restart_spec (atWall.finish false) Draw.sample 2).1⟩

/-- C10. In a game that is not over, a key other than the restart key that is
bound to the direction `d` is judged against `direction`, whatever
`pendingDirection` holds: when `d` is the exact negation of `direction` the state
stays as it is, otherwise `pendingDirection` becomes `d` and every other field
stays as it is. -/
theorem keydown_reversal (g : SnakeGame) (event : KeyEvent) (d : Direction)
    (rng : List Draw) (frame : Nat) (hcode : event.code ≠ "Space")
    (hover : g.isGameOver = false)
    (hkey : KEY_BINDINGS (normalizedKey event.key) = some d) :
    (g.direction = Heading.vector ⟨-d.x, -d.y⟩ →
      g.handleKeydown event rng frame = some (g, rng)) ∧
    (g.direction ≠ Heading.vector ⟨-d.x, -d.y⟩ →
      ∃ g', g.handleKeydown event rng frame = some (g', rng) ∧
        g'.pendingDirection = Heading.vector d ∧ g'.snake = g.snake ∧
        g'.direction = g.direction ∧ g'.score = g.score ∧ g'.food = g.food ∧
        g.SameOutcome g' ∧ g' = { g with pendingDirection := Heading.vector d }) := by
  have hl : lookupBinding (normalizedKey event.key) = some (Heading.vector d) := by
    simp [lookupBinding, hkey]
  constructor
  · intro hopp
    simp [handleKeydown, hcode, hover, hl, hopp, Heading.isOpposite]
  · intro hopp
    have hno : g.direction.isOpposite (Heading.vector d) = false := by
      cases hd : g.direction with
      | member => rfl
      | vector a =>
        cases h : (Heading.vector a).isOpposite (Heading.vector d) with
        | false => rfl
        | true =>
          exfalso
          apply hopp
          simp only [Heading.isOpposite, Bool.and_eq_true, beq_iff_eq] at h
          obtain ⟨ax, ay⟩ := a
          simp only at h
          rw [hd, h.1, h.2]
    refine ⟨{ g with pendingDirection := Heading.vector d }, ?_, rfl, rfl, rfl, rfl, rfl,
      ⟨rfl, rfl, rfl⟩, rfl⟩
    simp [handleKeydown, hcode, hover, hl, hno]

/-- C10, for a snake heading UP with RIGHT pending: the key `s` (DOWN) is refused
and RIGHT stays pending. -/
theorem keydown_reversal_witness :
    ((⟨"KeyS", "s"⟩ : KeyEvent).code ≠ "Space" ∧ curled.isGameOver = false ∧
      KEY_BINDINGS (normalizedKey (⟨"KeyS", "s"⟩ : KeyEvent).key) = some DIRECTIONS.DOWN ∧
      curled.direction = Heading.vector ⟨-DIRECTIONS.DOWN.x, -DIRECTIONS.DOWN.y⟩ ∧
      curled.pendingDirection = Heading.vector DIRECTIONS.RIGHT) ∧
    curled.handleKeydown ⟨"KeyS", "s"⟩ [] 1 = some (curled, []) :=
  ⟨⟨by decide, by decide, by decide, by decide, by decide⟩,
    (keydown_reversal curled ⟨"KeyS", "s"⟩ DIRECTIONS.DOWN [] 1 (by decide) (by decide)
      (by decide)).1 (by decide)⟩

end SnakeGame

namespace SnakeGame

/-! ## Keys -/

/-- C11, at the failing key.  The twelve bound keys are looked up as the claim
says, but the key `constructor`, which is none of them, is not ignored: the
table inherits a member of that name, the member passes the guard, and
`pendingDirection` is overwritten with it. -/
theorem keydown_inherited_key :
    (lookupBinding (normalizedKey "ArrowUp") = some (Heading.vector DIRECTIONS.UP) ∧
      lookupBinding (normalizedKey "w") = some (Heading.vector DIRECTIONS.UP) ∧
      lookupBinding (normalizedKey "W") = some (Heading.vector DIRECTIONS.UP) ∧
      lookupBinding (normalizedKey "ArrowLeft") = some (Heading.vector DIRECTIONS.LEFT) ∧
      lookupBinding (normalizedKey "a") = some (Heading.vector DIRECTIONS.LEFT) ∧
      lookupBinding (normalizedKey "A") = some (Heading.vector DIRECTIONS.LEFT) ∧
      lookupBinding (normalizedKey "ArrowDown") = some (Heading.vector DIRECTIONS.DOWN) ∧
      lookupBinding (normalizedKey "s") = some (Heading.vector DIRECTIONS.DOWN) ∧
      lookupBinding (normalizedKey "S") = some (Heading.vector DIRECTIONS.DOWN) ∧
      lookupBinding (normalizedKey "ArrowRight") = some (Heading.vector DIRECTIONS.RIGHT) ∧
      lookupBinding (normalizedKey "d") = some (Heading.vector DIRECTIONS.RIGHT) ∧
      lookupBinding (normalizedKey "D") = some (Heading.vector DIRECTIONS.RIGHT)) ∧
    "constructor" ∉ ["ArrowUp", "w", "W", "ArrowLeft", "a", "A", "ArrowDown", "s", "S",
      "ArrowRight", "d", "D"] ∧
    lookupBinding (normalizedKey "constructor") = some Heading.member ∧
    fresh.handleKeydown ⟨"KeyC", "constructor"⟩ [] 1 = some (misled, []) ∧
    misled.pendingDirection ≠ fresh.pendingDirection := by
  decide

/-! ## The session -/

/-- C12. A game that is over and whose loop has stopped, as it has in every lost
or won state and in every reachable state that is over, stays as it is: a
callback of `loop` at any timestamp and any key event other than the restart key
return the state itself, `stop()` changes nothing of outcome, snake, headings,
score and food; `restart()` and the restart key, and only they, lead to a
running game. -/
theorem terminal_absorbing (g : SnakeGame) (hover : g.isGameOver = true)
    (hstate : g.isRunning = false ∨ g.Reachable) :
    (g.Lost ∨ g.Won) ∧
    (∀ t rng frame, g.loop t rng frame = some (g, rng)) ∧
    (∀ event rng frame, event.code ≠ "Space" →
      g.handleKeydown event rng frame = some (g, rng)) ∧
    (g.SameOutcome g.stop ∧ g.stop.snake = g.snake ∧ g.stop.direction = g.direction ∧
      g.stop.pendingDirection = g.pendingDirection ∧ g.stop.score = g.score ∧
      g.stop.food = g.food) ∧
    (∀ rng frame g' rest, g.restart rng frame = some (g', rest) → g'.Running) ∧
    (∀ event rng frame, event.code = "Space" →
      g.handleKeydown event rng frame = g.restart rng frame) := by
  have hrun : g.isRunning = false := by
    rcases hstate with h | h
    · exact h
    · exact settled_of_reachableBy h hover
  refine ⟨?_, ?_, ?_, ?_, ?_, ?_⟩
  · cases hw : g.didWin with
    | false => exact Or.inl ⟨hover, hw, hrun⟩
    | true => exact Or.inr ⟨hover, hw, hrun⟩
  · intro t rng frame
    simp [loop, hrun]
  · intro event rng frame hcode
    simp [handleKeydown, hcode, hover]
  · unfold stop SameOutcome
    cases hid : g.animationFrameId with
    | none => simp [hrun]
    | some id =>
      by_cases h0 : id = 0
      · simp [h0, hrun]
      · simp [h0, hrun]
  · intro rng frame g' rest hr
    obtain ⟨c, _, _, rfl⟩ := restart_some hr
    exact ⟨rfl, rfl, rfl⟩
  · intro event rng frame hcode
    simp [handleKeydown, hcode]

/-- C12, for the game lost at the wall: a tick and the key `a` leave it as it is,
the restart key leads to a running game. -/
theorem terminal_absorbing_witness :
    ((atWall.finish false).isGameOver = true ∧ (atWall.finish false).isRunning = false) ∧
    (atWall.finish false).loop 5000 [] 7 = some (atWall.finish false, []) ∧
    (atWall.finish false).handleKeydown ⟨"KeyA", "a"⟩ [] 7 = some (atWall.finish false, []) ∧
    ((atWall.finish false).restart Draw.sample 7).isSome = true ∧
    ∀ g' rest, (atWall.finish false).restart Draw.sample 7 = some (g', rest) → g'.Running :=
  ⟨⟨by decide, by decide⟩,
    (terminal_absorbing (atWall.finish false) (by decide) (Or.inl (by decide))).2.1 5000 [] 7,
    (terminal_absorbing (atWall.finish false) (by decide) (Or.inl (by decide))).2.2.1
      ⟨"KeyA", "a"⟩ [] 7 (by decide),
    by decide,
    (terminal_absorbing (atWall.finish false) (by decide) (Or.inl (by decide))).2.2.2.2.1
      Draw.sample 7⟩

/-- C13. `stop()` twice is `stop()` once, and `stop()` changes nothing but
`isRunning` and the handle of the scheduled callback. -/
theorem stop_idempotent (g : SnakeGame) :
    g.stop.stop = g.stop ∧
    g.stop.isRunning = false ∧
    g.stop.snake = g.snake ∧ g.stop.direction = g.direction ∧
    g.stop.pendingDirection = g.pendingDirection ∧ g.stop.score = g.score ∧
    g.stop.food = g.food ∧ g.stop.isGameOver = g.isGameOver ∧ g.stop.didWin = g.didWin ∧
    g.stop.lastFrameTime = g.lastFrameTime ∧
    (g.stop.animationFrameId = none ∨ g.stop.animationFrameId = some 0) := by
  unfold stop
  cases hid : g.animationFrameId with
  | none => simp [hid]
  | some id =>
    by_cases h0 : id = 0
    · simp [hid, h0]
    · simp [hid, h0]

/-! ## Invariants of the reachable states -/

/-- C14. In every state reachable from `restart()` by key events, callbacks of
`loop`, `stop()` and `restart()`, the score is a non-negative integer and equals
the length of the snake minus 3. -/
theorem score_is_length_minus_three (g : SnakeGame) (h : g.Reachable) :
    0 ≤ g.score ∧ g.score = (g.snake.length : Int) - 3 := by
  have hs := sound_of_reachableBy h
  have h1 := hs.score
  have h2 := hs.length
  constructor
  · omega
  · exact h1

/-- C14, for the game right after the constructor. -/
theorem score_is_length_minus_three_witness :
    fresh.Reachable ∧ (0 ≤ fresh.score ∧ fresh.score = (fresh.snake.length : Int) - 3) :=
  ⟨reachableBy_fresh _, score_is_length_minus_three fresh (reachableBy_fresh _)⟩

/-- C15, on the failing trace: after the key `constructor` and the next tick the
head of the snake is the object with `NaN` coordinates, which is no cell of the
board. -/
theorem ghost_segment_off_board :
    ghost.Reachable ∧ ghost.snake.head? = some Segment.nan ∧
      ¬ (∀ s ∈ ghost.snake, s.onBoard) :=
  ⟨reachable_ghost, by decide, by decide⟩

/-- C16. In every reachable state the food is absent only in a won game whose
snake is on every cell of the board, a food that is present is a cell of the
board and no segment of the snake, and a running game has food. -/
theorem food_invariant (g : SnakeGame) (h : g.Reachable) :
    (g.food = none → g.Won ∧ ∀ c : Cell, c.inGrid → Segment.cell c ∈ g.snake) ∧
    (∀ f, g.food = some f → f.inGrid ∧ ∀ s ∈ g.snake, s ≠ Segment.cell f) ∧
    (g.isRunning = true → g.food ≠ none) ∧
    (g.isGameOver = false → g.food ≠ none) := by
  have hs := sound_of_reachableBy h
  refine ⟨hs.won, ?_, ?_, ?_⟩
  · intro f hf
    refine ⟨(hs.food f hf).1, ?_⟩
    intro s hm heq
    exact (hs.food f hf).2 (heq ▸ hm)
  · intro hrun hn
    have := (hs.won hn).1.2.2
    rw [hrun] at this
    exact Bool.noConfusion this
  · intro hover hn
    have := (hs.won hn).1.1
    rw [hover] at this
    exact Bool.noConfusion this

/-- C16, for the game right after the constructor: it runs and its food is the
cell (3, 4), off the snake. -/
theorem food_invariant_witness :
    (fresh.Reachable ∧ fresh.isRunning = true ∧ fresh.food = some ⟨3, 4⟩) ∧
    (Cell.inGrid ⟨3, 4⟩ ∧ ∀ s ∈ fresh.snake, s ≠ Segment.cell ⟨3, 4⟩) ∧
    fresh.food ≠ none :=
  ⟨⟨reachableBy_fresh _, by decide, by decide⟩,
    (food_invariant fresh (reachableBy_fresh _)).2.1 ⟨3, 4⟩ (by decide),
    (food_invariant fresh (reachableBy_fresh _)).2.2.1 (by decide)⟩

/-! ## The ticks -/

/-- C17. In a running game the callback of `loop` at the timestamp `t` steps
exactly when `t` is at least 110 ms after the last tick, where a last tick time
of 0 is first replaced by `t`: then it records `t` and returns what `step()`
returns, scheduled again if still running; otherwise it returns with snake,
headings, score, food and outcome as they were.  The first callback after a
`restart()` never steps. -/
theorem tick_gating (g : SnakeGame) (t : Int) (rng : List Draw) (frame : Nat)
    (hrun : g.isRunning = true) :
    (MOVE_INTERVAL_MS ≤ t - (if g.lastFrameTime = 0 then t else g.lastFrameTime) →
      g.loop t rng frame = (step { g with lastFrameTime := t } rng).map
        (fun p => (if p.1.isRunning = true then { p.1 with animationFrameId := some frame }
          else p.1, p.2)) ∧
      ∀ g' rest, g.loop t rng frame = some (g', rest) → g'.lastFrameTime = t) ∧
    (t - (if g.lastFrameTime = 0 then t else g.lastFrameTime) < MOVE_INTERVAL_MS →
      ∃ g', g.loop t rng frame = some (g', rng) ∧ g'.snake = g.snake ∧
        g'.direction = g.direction ∧ g'.pendingDirection = g.pendingDirection ∧
        g'.score = g.score ∧ g'.food = g.food ∧ g.SameOutcome g' ∧
        g'.lastFrameTime = (if g.lastFrameTime = 0 then t else g.lastFrameTime)) ∧
    (∀ (g0 : SnakeGame) (rng0 rest : List Draw) (frame0 : Nat),
      g0.restart rng0 frame0 = some (g, rest) →
      ∃ g', g.loop t rng frame = some (g', rng) ∧ g'.snake = g.snake ∧
        g'.direction = g.direction ∧ g'.pendingDirection = g.pendingDirection ∧
        g'.score = g.score ∧ g'.food = g.food ∧ g.SameOutcome g' ∧
        g'.lastFrameTime = t) := by
  have hidle : t - (if g.lastFrameTime = 0 then t else g.lastFrameTime) < MOVE_INTERVAL_MS →
      ∃ g', g.loop t rng frame = some (g', rng) ∧ g'.snake = g.snake ∧
        g'.direction = g.direction ∧ g'.pendingDirection = g.pendingDirection ∧
        g'.score = g.score ∧ g'.food = g.food ∧ g.SameOutcome g' ∧
        g'.lastFrameTime = (if g.lastFrameTime = 0 then t else g.lastFrameTime) := by
    intro hlt
    by_cases h0 : g.lastFrameTime = 0
    · simp only [h0, if_true] at hlt
      have hn : ¬ MOVE_INTERVAL_MS ≤ 0 := by decide
      refine ⟨{ g with lastFrameTime := t, animationFrameId := some frame }, ?_, rfl, rfl, rfl,
        rfl, rfl, ⟨rfl, rfl, rfl⟩, by simp [h0]⟩
      simp [loop, hrun, h0, hn]
    · simp only [h0, if_false] at hlt
      have hn : ¬ MOVE_INTERVAL_MS ≤ t - g.lastFrameTime := not_le.2 hlt
      refine ⟨{ g with animationFrameId := some frame }, ?_, rfl, rfl, rfl,
        rfl, rfl, ⟨rfl, rfl, rfl⟩, by simp [h0]⟩
      simp [loop, hrun, h0, hn]
  refine ⟨?_, hidle, ?_⟩
  · intro hge
    have hloop : g.loop t rng frame = (step { g with lastFrameTime := t } rng).map
        (fun p => (if p.1.isRunning = true then { p.1 with animationFrameId := some frame }
          else p.1, p.2)) := by
      by_cases h0 : g.lastFrameTime = 0
      · simp only [h0, if_true, sub_self] at hge
        exact absurd hge (by decide)
      · simp only [h0, if_false] at hge
        simp only [loop, hrun, Bool.not_true, Bool.false_eq_true, if_false, h0, ge_iff_le, hge,
          if_true]
        split
        · rename_i heq
          rw [heq]
          rfl
        · rename_i g2 rest heq
          rw [heq]
          by_cases hr : g2.isRunning = true
          · simp [hr]
          · simp [hr]
    refine ⟨hloop, ?_⟩
    intro g' rest hl
    rw [hloop] at hl
    cases hs : step { g with lastFrameTime := t } rng with
    | none => simp [hs] at hl
    | some p =>
      simp only [hs, Option.map_some', Option.some.injEq, Prod.mk.injEq] at hl
      have hp := step_lastFrameTime hs
      obtain ⟨hg, _⟩ := hl
      rw [← hg]
      by_cases hr : p.1.isRunning = true
      · simp only [hr, if_true]
        exact hp
      · simp only [hr, Bool.false_eq_true, if_false]
        exact hp
  · intro g0 rng0 rest frame0 hr
    have hz : g.lastFrameTime = 0 := by
      unfold restart at hr
      cases hs : spawnFood
          { g0.stop with
            snake := [Segment.cell ⟨8, 10⟩, Segment.cell ⟨7, 10⟩, Segment.cell ⟨6, 10⟩]
            direction := Heading.vector DIRECTIONS.RIGHT
            pendingDirection := Heading.vector DIRECTIONS.RIGHT
            score := 0
            isGameOver := false
            didWin := false
            lastFrameTime := 0 } rng0 with
      | none => simp [hs] at hr
      | some p =>
        simp only [hs, Option.some.injEq, Prod.mk.injEq] at hr
        obtain ⟨rfl, _⟩ := hr
        rfl
    have hlt : t - (if g.lastFrameTime = 0 then t else g.lastFrameTime) < MOVE_INTERVAL_MS := by
      simp only [hz, if_true, sub_self]
      decide
    obtain ⟨g', h1, h2, h3, h4, h5, h6, h7, h8⟩ := hidle hlt
    refine ⟨g', h1, h2, h3, h4, h5, h6, h7, ?_⟩
    rw [h8, hz]
    simp

/-- C17, for a game whose last tick was at 1000 ms: the callback at 1110 ms steps
and records 1110, the callback at 1109 ms does not step. -/
theorem tick_gating_witness :
    (ticking.isRunning = true ∧
      MOVE_INTERVAL_MS ≤ 1110 - (if ticking.lastFrameTime = 0 then 1110
        else ticking.lastFrameTime)) ∧
    ticking.loop 1110 [] 2 = (step { ticking with lastFrameTime := 1110 } []).map
      (fun p => (if p.1.isRunning = true then { p.1 with animationFrameId := some 2 }
        else p.1, p.2)) ∧
    (ticking.loop 1110 [] 2).map (fun p => (p.1.snake, p.1.lastFrameTime)) =
      some ([Segment.cell ⟨9, 10⟩, Segment.cell ⟨8, 10⟩, Segment.cell ⟨7, 10⟩], 1110) ∧
    (ticking.loop 1109 [] 2).map (fun p => (p.1.snake, p.1.lastFrameTime)) =
      some (ticking.snake, 1000) :=
  ⟨⟨by decide, by decide⟩,
    ((tick_gating ticking 1110 [] 2 (by decide)).1 (by decide)).1, by decide, by decide⟩

/-! ## The headings -/

/-- C18, on the failing trace: after the key `constructor` and the next tick the
head has `NaN` coordinates and `direction` is no vector, so the second segment,
the cell (8, 10), is not the head minus `direction`. -/
theorem ghost_neck_not_behind_head :
    ghost.Reachable ∧ ghost.snake.head? = some Segment.nan ∧
      ghost.direction = Heading.member ∧ ¬ ghost.NeckBehindHead := by
  refine ⟨reachable_ghost, by decide, by decide, ?_⟩
  rintro ⟨a, d, rest, hd, _⟩
  have hm : ghost.direction = Heading.member := by decide
  rw [hm] at hd
  exact Heading.noConfusion hd

/-- C19, on the failing trace: after the key `constructor` the pending heading is
none of the four unit vectors, and after the next tick the new head is not the
old head moved by one cell and the first two segments are not neighbours. -/
theorem misled_pending_not_cardinal :
    misled.Reachable ∧ ¬ misled.pendingDirection.Cardinal ∧
      misled.didCollide misled.nextHead (misled.isEating misled.nextHead) = false ∧
      (misled.step []).map (fun p => p.1.snake.head?) = some (some Segment.nan) ∧
      ghost.Reachable ∧ ¬ ghost.snake.Chain' (fun a b => b.Adjacent a) := by
  refine ⟨reachable_misled, by decide, by decide, by decide, reachable_ghost, ?_⟩
  intro hc
  have h := (List.chain'_cons.1 hc).1
  exact absurd h (by decide)

/-! ## The curled snake -/

/-- C20, as stated, has no instance: a snake of three cells, each next to the one
before, never has the cell of its tail one cardinal move ahead of its head. -/
theorem no_three_segment_curl :
    ¬ ∃ (g : SnakeGame) (a b c : Cell),
      g.snake = [Segment.cell a, Segment.cell b, Segment.cell c] ∧
      a.Adjacent b ∧ b.Adjacent c ∧ g.snake.Nodup ∧ (∀ s ∈ g.snake, s.onBoard) ∧
      g.pendingDirection.Cardinal ∧ g.nextHead = Segment.cell c ∧ g.food ≠ some c ∧
      g.didCollide g.nextHead (g.isEating g.nextHead) = false := by
  rintro ⟨g, a, b, c, hs, hab, hbc, _, _, hcard, hnext, _, _⟩
  obtain ⟨d1, hd1, hb⟩ := hab
  obtain ⟨d2, hd2, hc⟩ := hbc
  have hmove : ∃ d ∈ [DIRECTIONS.UP, DIRECTIONS.DOWN, DIRECTIONS.LEFT, DIRECTIONS.RIGHT],
      c = ⟨a.x + d.x, a.y + d.y⟩ := by
    unfold nextHead at hnext
    rw [hs] at hnext
    rcases hcard with h | h | h | h <;> rw [h] at hnext <;>
      simp only [Segment.moved, Segment.cell.injEq] at hnext
    · exact ⟨DIRECTIONS.UP, by simp, hnext.symm⟩
    · exact ⟨DIRECTIONS.DOWN, by simp, hnext.symm⟩
    · exact ⟨DIRECTIONS.LEFT, by simp, hnext.symm⟩
    · exact ⟨DIRECTIONS.RIGHT, by simp, hnext.symm⟩
  obtain ⟨d3, hd3, hc3⟩ := hmove
  obtain ⟨ax, ay⟩ := a
  obtain ⟨bx, bY⟩ := b
  obtain ⟨cx, cy⟩ := c
  simp only [Cell.mk.injEq] at hb hc hc3
  simp only [List.mem_cons, List.mem_singleton, List.not_mem_nil, or_false] at hd1 hd2 hd3
  rcases hd1 with rfl | rfl | rfl | rfl <;> rcases hd2 with rfl | rfl | rfl | rfl <;>
    rcases hd3 with rfl | rfl | rfl | rfl <;>
    simp only [DIRECTIONS.UP, DIRECTIONS.DOWN, DIRECTIONS.LEFT, DIRECTIONS.RIGHT] at hb hc hc3 <;>
    omega

/-- C20, amended to four segments: there is a snake curled in a square, of
distinct cells of the board each next to the one before, whose candidate head is
the cell of its tail with no food there, and `step()` flags no collision for it
and moves the snake. -/
theorem four_segment_curl :
    ∃ (g : SnakeGame) (a b c d : Cell),
      g.snake = [Segment.cell a, Segment.cell b, Segment.cell c, Segment.cell d] ∧
      a.Adjacent b ∧ b.Adjacent c ∧ c.Adjacent d ∧ g.snake.Nodup ∧
      (∀ s ∈ g.snake, s.onBoard) ∧
      g.pendingDirection.Cardinal ∧ g.nextHead = Segment.cell d ∧ g.food ≠ some d ∧
      g.didCollide g.nextHead (g.isEating g.nextHead) = false ∧
      (g.step []).map (fun p => (p.1.snake, p.1.isGameOver)) =
        some ([Segment.cell d, Segment.cell a, Segment.cell b, Segment.cell c], false) :=
  ⟨curled, ⟨5, 5⟩, ⟨5, 6⟩, ⟨6, 6⟩, ⟨6, 5⟩, by decide⟩

end SnakeGame

/-! ## What holds apart from the inherited keys -/

namespace SnakeGame

/-- A key event other than the restart key whose key is none of the twelve bound
keys and no name of a member of `Object.prototype` leaves the state as it is. -/
theorem keydown_unbound_key (g : SnakeGame) (event : KeyEvent) (rng : List Draw)
    (frame : Nat) (hcode : event.code ≠ "Space")
    (hbound : event.key ∉ ["ArrowUp", "w", "W", "ArrowDown", "s", "S", "ArrowLeft", "a", "A",
      "ArrowRight", "d", "D"])
    (hplain : event.key ∉ OBJECT_PROTOTYPE_KEYS) :
    g.handleKeydown event rng frame = some (g, rng) := by
  have hl : lookupBinding (normalizedKey event.key) = none := by
    rw [lookupBinding_normalizedKey]
    simp only [List.mem_cons, List.mem_singleton, List.not_mem_nil, or_false, not_or] at hbound
    obtain ⟨h1, h2, h3, h4, h5, h6, h7, h8, h9, h10, h11, h12⟩ := hbound
    simp [h1, h2, h3, h4, h5, h6, h7, h8, h9, h10, h11, h12, hplain]
  unfold handleKeydown
  simp only [hcode, if_false, hl]
  by_cases hover : g.isGameOver = true
  · simp [hover]
  · simp [hover]

/-- In every state reachable by the keyboard the snake has at least 3 segments,
all of them cells of the board and pairwise distinct, hence at most
`GRID_SIZE * GRID_SIZE` of them. -/
theorem keyboard_segments_on_board (g : SnakeGame) (h : g.ReachableByKeyboard) :
    3 ≤ g.snake.length ∧ (∀ s ∈ g.snake, s.onBoard) ∧ g.snake.Nodup ∧
      g.snake.length ≤ GRID_SIZE * GRID_SIZE := by
  have ht := tidy_of_reachableByKeyboard h
  exact ⟨ht.length, ht.onBoard, ht.nodup, length_le_of_nodup _ ht.nodup ht.onBoard⟩

/-- In every state reachable by the keyboard the pending heading is not the
reverse of the applied one, the second segment is the head minus `direction`,
and the candidate head is not the second segment. -/
theorem keyboard_neck_behind_head (g : SnakeGame) (h : g.ReachableByKeyboard) :
    g.direction.isOpposite g.pendingDirection = false ∧ g.NeckBehindHead ∧
      ∀ x n rest, g.snake = x :: n :: rest → g.nextHead ≠ n := by
  have ht := tidy_of_reachableByKeyboard h
  exact ⟨ht.notOpposite, neckBehindHead_of_tidy ht, nextHead_ne_neck_of_tidy ht⟩

/-- In every state reachable by the keyboard the pending heading is one of the
four unit vectors, the candidate head is the head moved by it, a `step()` that
does not collide puts the candidate at the front and commits the heading, and
each segment is next to the one before. -/
theorem keyboard_cardinal_movement (g : SnakeGame) (h : g.ReachableByKeyboard) :
    g.pendingDirection.Cardinal ∧
    (∃ (a : Cell) (p : Direction), g.snake.head? = some (Segment.cell a) ∧
      g.pendingDirection = Heading.vector p ∧
      g.nextHead = Segment.cell ⟨a.x + p.x, a.y + p.y⟩) ∧
    (∀ rng g' rest, g.didCollide g.nextHead (g.isEating g.nextHead) = false →
      g.step rng = some (g', rest) →
      g'.snake.head? = some g.nextHead ∧ g'.direction = g.pendingDirection) ∧
    g.snake.Chain' (fun a b => b.Adjacent a) := by
  have ht := tidy_of_reachableByKeyboard h
  obtain ⟨a, n, tl, p, hsn, hpe, _, hnh⟩ := nextHead_of_tidy ht
  refine ⟨ht.pending, ⟨a, p, by rw [hsn]; rfl, hpe, hnh⟩, ?_, ht.chain⟩
  intro rng g' rest hc hs
  cases he : g.isEating g.nextHead with
  | false =>
    rw [step_of_move rng hc he] at hs
    simp only [Option.some.injEq, Prod.mk.injEq] at hs
    obtain ⟨rfl, _⟩ := hs
    refine ⟨?_, rfl⟩
    show ((g.nextHead :: g.snake).dropLast).head? = some g.nextHead
    rw [hsn]
    rfl
  | true =>
    obtain ⟨h1, _, h3, _, _⟩ := step_eat_result hc he hs
    rw [h1]
    exact ⟨rfl, h3⟩

end SnakeGame
